import Mathlib

/-!
# Rope-Pulling-Game-Simulator: the referee's round logic

A shallow embedding of `src/game_logic.c`, of the round timer of
`src/parent.c` and of the signal handlers of `src/player.c`.

Conventions of the embedding.

* A C `int` is an `Int`.  The round, score and streak counters are counted up
  in `Int`: they start at 0 and stop at `maxRounds`.  The sums of
  `collectEnergies`, which add up values read from outside, are reduced to the
  32-bit range after every addition (`wrapInt`), as the machine does.
* A C `double` holding a finite value is a `ℚ`, its value; the comparison `<`
  of two finite doubles is the comparison of their values.  The result of an
  arithmetic operation on doubles is rounded to the nearest double
  (`roundDouble`); the conversion of an `int` to a double is exact.
* The global array `gPlayers[NUM_PLAYERS]` is a `List Player`; the loops
  `for (i = 0; i < NUM_PLAYERS; i++)` walk that list front to back.
* A local array `Player t[4]` is a `List Player` too; the slot `t[i]` is
  `t[i]?`.  When a team has fewer than four players the C code would go on with
  uninitialised slots; the embedding then has no such slot and skips it.
* Functions that take a `GameState*` pass the state explicitly and return it.
* A `read` on a pipe is an input of the embedding: its return value and the
  content of the buffer afterwards.  Signals sent, factors written and the
  registration of the next timer tick are recorded as events; `printf` and
  `usleep` are left out.
* The signal handlers of a player run one at a time, each to its end; the
  value of `rand()` is an input of the handler that calls it.
-/

namespace RopeGame

/-! ## Data model (`parent.h`, `game_logic.h`) -/

/-- The number of players, `#define NUM_PLAYERS 8`. -/
def NUM_PLAYERS : Nat := 8

/-- The struct `Vec2D` of `parent.h`. -/
structure Vec2D where
  x : ℚ
  y : ℚ
  deriving DecidableEq

/-- The struct `Player` of `parent.h`. -/
structure Player where
  id : Int
  team : Int
  energy : ℚ
  position : Vec2D
  positionFactor : Int
  fallen : Int
  deriving DecidableEq

/-- The struct `GameState` of `game_logic.h`. -/
structure GameState where
  roundNumber : Int
  scoreTeam1 : Int
  scoreTeam2 : Int
  consecutiveWinsTeam1 : Int
  consecutiveWinsTeam2 : Int
  winThreshold : Int
  maxRounds : Int
  currentTime : Int
  sumTeam1 : Int
  sumTeam2 : Int
  ropeOffset : Int
  deriving DecidableEq

/-! ## `game_logic.c` -/

/-- The function `initGameLogic`: every field but `ropeOffset` is assigned. -/
def initGameLogic (state : GameState) : GameState :=
  { state with
    roundNumber := 0
    scoreTeam1 := 0
    scoreTeam2 := 0
    consecutiveWinsTeam1 := 0
    consecutiveWinsTeam2 := 0
    winThreshold := 500
    maxRounds := 5
    currentTime := 0
    sumTeam1 := 0
    sumTeam2 := 0 }

/-- The loop of `gatherTeam`, from the players still to visit and the slots of
`dest` filled so far (`count = dest.length`). -/
def gatherTeamLoop (team : Int) : List Player → List Player → List Player
  | [], dest => dest
  | p :: rest, dest =>
    if p.team = team then
      if (dest ++ [p]).length = 4 then dest ++ [p]
      else gatherTeamLoop team rest (dest ++ [p])
    else gatherTeamLoop team rest dest

/-- The function `gatherTeam`: the filled slots of `dest`, in order. -/
def gatherTeam (gPlayers : List Player) (team : Int) : List Player :=
  gatherTeamLoop team gPlayers []

/-- The body of the inner loop of `sortByEnergyAsc`:
`if (arr[j].energy < arr[i].energy) swap(arr[i], arr[j])`. -/
def compareSwap (arr : List Player) (i j : Nat) : List Player :=
  match arr[i]?, arr[j]? with
  | some ai, some aj =>
    if aj.energy < ai.energy then (arr.set i aj).set j ai else arr
  | _, _ => arr

/-- The function `sortByEnergyAsc`: for `i` in `0..3`, for `j` in `i+1..3`. -/
def sortByEnergyAsc (arr : List Player) : List Player :=
  (List.range 4).foldl
    (fun a i => (List.range' (i + 1) (4 - (i + 1))).foldl (fun b j => compareSwap b i j) a)
    arr

/-- The loop `for (i = 0; i < 4; i++) t[i].positionFactor = i + 1;` of
`reorderTeams`, on one of the two arrays. -/
def assignFactors (t : List Player) : List Player :=
  (List.range 4).foldl
    (fun a i =>
      match a[i]? with
      | some p => a.set i { p with positionFactor := (i : Int) + 1 }
      | none => a)
    t

/-- The inner loop of the write back of `reorderTeams`: the first player whose
id is `id` gets the factor, then `break`. -/
def setFactorById (id factor : Int) : List Player → List Player
  | [] => []
  | p :: rest =>
    if p.id = id then { p with positionFactor := factor } :: rest
    else p :: setFactorById id factor rest

/-- One write-back loop of `reorderTeams`: for `i` in `0..3`, the factor of
`t[i]` goes to the player of `gPlayers` with the id of `t[i]`. -/
def writeBack (t : List Player) (gPlayers : List Player) : List Player :=
  (List.range 4).foldl
    (fun g i =>
      match t[i]? with
      | some p => setFactorById p.id p.positionFactor g
      | none => g)
    gPlayers

/-- The function `reorderTeams`, on the global `gPlayers`. -/
def reorderTeams (gPlayers : List Player) : List Player :=
  let t1 := assignFactors (sortByEnergyAsc (gatherTeam gPlayers 1))
  let t2 := assignFactors (sortByEnergyAsc (gatherTeam gPlayers 2))
  writeBack t2 (writeBack t1 gPlayers)

/-- The function `startRound`. -/
def startRound (state : GameState) (gPlayers : List Player) : GameState × List Player :=
  ({ state with roundNumber := state.roundNumber + 1 }, reorderTeams gPlayers)

/-- The outcome of one `read(fd, &rawVal, sizeof(rawVal))` with `rawVal`
initialised to 0: the return value and the content of `rawVal` afterwards. -/
structure ReadResult where
  ret : Int
  rawVal : Int
  deriving DecidableEq

/-- The value a 32-bit `int` holds after an addition whose exact result is `x`:
`x` reduced modulo `2 ^ 32` into the range from `-2 ^ 31` to `2 ^ 31 - 1`. -/
def wrapInt (x : Int) : Int :=
  (x + 2147483648) % 4294967296 - 2147483648

/-- One pass of a loop of `collectEnergies`: channel `i` of the team whose first
player is `gPlayers[base]`; the second component is the `int` total. -/
def collectOne (base : Nat) (reads : Nat → ReadResult)
    (acc : List Player × Int) (i : Nat) : List Player × Int :=
  if (reads (base + i)).ret > 0 then
    (match acc.1[base + i]? with
      | some p => acc.1.set (base + i) { p with energy := ((reads (base + i)).rawVal : ℚ) }
      | none => acc.1,
     wrapInt (acc.2 + (reads (base + i)).rawVal))
  else acc

/-- The function `collectEnergies`; `reads k` is the outcome of the read on the
energy pipe of player `k` (`pipeFDsTeam1[i]` is pipe `i`, `pipeFDsTeam2[i]` is
pipe `i + 4`, as `timerRoundLogic` passes them). -/
def collectEnergies (state : GameState) (gPlayers : List Player)
    (reads : Nat → ReadResult) : GameState × List Player :=
  let r1 := (List.range 4).foldl (collectOne 0 reads) (gPlayers, 0)
  let r2 := (List.range 4).foldl (collectOne 4 reads) (r1.1, 0)
  ({ state with sumTeam1 := r1.2, sumTeam2 := r2.2 }, r2.1)

/-- The function `checkRoundWinner`. -/
def checkRoundWinner (state : GameState) : Int × GameState :=
  if state.sumTeam1 ≥ state.winThreshold then (1, state)
  else if state.sumTeam2 ≥ state.winThreshold then (2, state)
  else (0, state)

/-- The function `endRound`. -/
def endRound (state : GameState) (winningTeam : Int) : GameState :=
  let s :=
    if winningTeam = 1 then
      { state with
        scoreTeam1 := state.scoreTeam1 + 1
        consecutiveWinsTeam1 := state.consecutiveWinsTeam1 + 1
        consecutiveWinsTeam2 := 0
        ropeOffset := state.ropeOffset - 1 }
    else if winningTeam = 2 then
      { state with
        scoreTeam2 := state.scoreTeam2 + 1
        consecutiveWinsTeam2 := state.consecutiveWinsTeam2 + 1
        consecutiveWinsTeam1 := 0
        ropeOffset := state.ropeOffset + 1 }
    else state
  { s with sumTeam1 := 0, sumTeam2 := 0 }

/-- The function `isGameOver`. -/
def isGameOver (state : GameState) : Int × GameState :=
  if state.roundNumber ≥ state.maxRounds then (1, state)
  else if state.consecutiveWinsTeam1 ≥ 2 ∨ state.consecutiveWinsTeam2 ≥ 2 then (1, state)
  else (0, state)

/-! ## The round timer of `parent.c` -/

/-- The signals the referee sends: `SIGUSR1` is GET_READY, `SIGUSR2` is
START_PULLING, `SIGALRM` is REPORT_ENERGY. -/
inductive Signal
  | SIGUSR1
  | SIGUSR2
  | SIGALRM
  deriving DecidableEq

/-- What one run of `timerRoundLogic` does to the outside, in order. -/
inductive Event
  | gameOver (scoreTeam1 scoreTeam2 : Int)
  | kill (child : Nat) (sig : Signal)
  | writeFactor (child : Nat) (factor : Int)
  | collect
  | timer
  deriving DecidableEq

/-- The globals of `parent.c` that the round logic reads and writes: `gState`,
`gPlayers` and the two statics `roundInProgress` and `secondCount`. -/
structure Machine where
  gState : GameState
  gPlayers : List Player
  roundInProgress : Int
  secondCount : Int
  deriving DecidableEq

/-- The block `if (!roundInProgress) { ... }` of `timerRoundLogic`. -/
def beginRound (m : Machine) : Machine × List Event :=
  let g := reorderTeams m.gPlayers
  ({ gState := { m.gState with roundNumber := m.gState.roundNumber + 1 }
     gPlayers := g
     roundInProgress := 1
     secondCount := 0 },
   (List.range NUM_PLAYERS).map (fun i => Event.kill i Signal.SIGUSR2) ++
   (List.range NUM_PLAYERS).filterMap
     (fun i => g[i]?.map (fun p => Event.writeFactor i p.positionFactor)) ++
   (List.range NUM_PLAYERS).map (fun i => Event.kill i Signal.SIGUSR1))

/-- The end of `timerRoundLogic`, from `checkRoundWinner` on, run on the globals
as `collectEnergies` left them; `ev` is what the tick did so far. -/
def evaluateRound (m : Machine) (ev : List Event) : Machine × List Event :=
  let w := checkRoundWinner m.gState
  if w.1 ≠ 0 then
    let over := isGameOver (endRound w.2 w.1)
    if over.1 ≠ 0 then
      ({ m with gState := over.2, roundInProgress := 0 },
       ev ++ [Event.gameOver over.2.scoreTeam1 over.2.scoreTeam2])
    else ({ m with gState := over.2, roundInProgress := 0 }, ev ++ [Event.timer])
  else
    if m.secondCount + 1 ≥ 10 then
      ({ m with gState := endRound w.2 0, roundInProgress := 0,
                secondCount := m.secondCount + 1 }, ev ++ [Event.timer])
    else
      ({ m with gState := w.2, secondCount := m.secondCount + 1 }, ev ++ [Event.timer])

/-- The middle of `timerRoundLogic`: the block that begins a round when none is
in progress, the REPORT_ENERGY signals and the call of `collectEnergies`. -/
def collectPhase (m : Machine) (reads : Nat → ReadResult) : Machine × List Event :=
  let b := if m.roundInProgress = 0 then beginRound m else (m, [])
  let c := collectEnergies b.1.gState b.1.gPlayers reads
  ({ b.1 with gState := c.1, gPlayers := c.2 },
   b.2 ++ (List.range NUM_PLAYERS).map (fun i => Event.kill i Signal.SIGALRM) ++
     [Event.collect])

/-- The function `timerRoundLogic`; `reads k` is the outcome of this tick's read
on the energy pipe of player `k`.  The event `timer` is the closing
`glutTimerFunc(1000, timerRoundLogic, 0)`: a run that returns early does not
register the next tick.  The assignments to `ropeShift` and `ropeTargetShift`,
floats that only the drawing code reads, are left out. -/
def timerRoundLogic (m : Machine) (reads : Nat → ReadResult) : Machine × List Event :=
  let over := isGameOver m.gState
  if over.1 ≠ 0 then
    ({ m with gState := over.2 }, [Event.gameOver over.2.scoreTeam1 over.2.scoreTeam2])
  else
    let c := collectPhase { m with gState := over.2 } reads
    evaluateRound c.1 c.2

/-- The globals when `main` registers the first tick: `gState` is a global, so
`initGameLogic` runs on the all-zero state; `gPlayers` is the table read from
the configuration; no round is in progress. -/
def initMachine (players : List Player) : Machine :=
  { gState := initGameLogic ⟨0, 0, 0, 0, 0, 0, 0, 0, 0, 0, 0⟩
    gPlayers := players
    roundInProgress := 0
    secondCount := 0 }

/-- The states the globals go through: the initial one and, from each, the one
after a run of `timerRoundLogic` with any outcome of the reads. -/
inductive Reachable (players : List Player) : Machine → Prop
  | init : Reachable players (initMachine players)
  | tick (m : Machine) (reads : Nat → ReadResult) :
      Reachable players m → Reachable players (timerRoundLogic m reads).1

/-- A call of the referee interface of `game_logic.h` that changes the state. -/
inductive RefereeCall
  | startRound
  | endRound (winningTeam : Int)

/-- The effect of one referee call on `gState` and `gPlayers`. -/
def applyCall (sp : GameState × List Player) : RefereeCall → GameState × List Player
  | RefereeCall.startRound => startRound sp.1 sp.2
  | RefereeCall.endRound w => (endRound sp.1 w, sp.2)

/-! ## The player process, `player.c` -/

/-- The globals of one player process. -/
structure Worker where
  gPlayerID : Int
  gTeamID : Int
  gEnergy : ℚ
  gPositionFactor : Int
  gFallen : Int
  gWriteFD : Int
  gFactorReadFD : Int
  deriving DecidableEq

/-- The integer nearest to `q`, a tie going to the even one. -/
def roundHalfEven (q : ℚ) : Int :=
  if q - (⌊q⌋ : ℚ) < 1 / 2 then ⌊q⌋
  else if 1 / 2 < q - (⌊q⌋ : ℚ) then ⌊q⌋ + 1
  else if ⌊q⌋ % 2 = 0 then ⌊q⌋
  else ⌊q⌋ + 1

/-- The exponent of the spacing of the doubles around `q`: 52 binary places
below the leading bit of `q`, and `2 ^ -1074` at the least. -/
def doubleSpacingExp (q : ℚ) : Int :=
  max (Int.log 2 |q| - 52) (-1074)

/-- The double nearest to `q`, a tie going to the one with the even last bit:
the result of a double operation whose exact value is `q`, below the overflow
threshold. -/
def roundDouble (q : ℚ) : ℚ :=
  (roundHalfEven (q / (2 : ℚ) ^ doubleSpacingExp q) : ℚ) * (2 : ℚ) ^ doubleSpacingExp q

/-- The fraction of `q` dropped, toward zero. -/
def truncToInt (q : ℚ) : Int :=
  Int.tdiv q.num q.den

/-- The conversion `(int) effective` of a double: the fraction is dropped when
the result is in the `int` range.  Outside of it C leaves the conversion
undefined; the conversion instruction of x86-64 then gives `INT_MIN`, and so
does the embedding. -/
def doubleToInt (q : ℚ) : Int :=
  if -2147483649 < q ∧ q < 2147483648 then truncToInt q else -2147483648

/-- The function `handleGetReady`; `r` is the outcome of the read on the factor
pipe, `r.ret` being `bytesRead` and `r.rawVal` the content of `newFactor`. -/
def handleGetReady (w : Worker) (r : ReadResult) : Worker :=
  if r.ret > 0 then { w with gPositionFactor := r.rawVal } else w

/-- The function `handleStartPulling`; `draw` is the value `rand()` returns when
it is called.  The C operator `%` is `Int.tmod`; `gEnergy -= decrease` is a
double subtraction. -/
def handleStartPulling (w : Worker) (draw : Int) : Worker :=
  if w.gFallen = 0 then
    { w with gEnergy :=
        if roundDouble (w.gEnergy - ((Int.tmod draw 10 + 5 : Int) : ℚ)) < 0 then 0
        else roundDouble (w.gEnergy - ((Int.tmod draw 10 + 5 : Int) : ℚ)) }
  else w

/-- The local `reportValue` of `handleReportEnergy`; `gEnergy * gPositionFactor`
is a double product. -/
def reportValue (w : Worker) : Int :=
  doubleToInt
    (if w.gFallen ≠ 0 then 0 else roundDouble (w.gEnergy * (w.gPositionFactor : ℚ)))

/-- The function `handleReportEnergy`: the globals, which it only reads, and the
value it writes to the energy pipe, if `gWriteFD` is not -1. -/
def handleReportEnergy (w : Worker) : Worker × Option Int :=
  (w, if w.gWriteFD ≠ -1 then some (reportValue w) else none)

/-- The function `handleFall`. -/
def handleFall (w : Worker) : Worker :=
  { w with gFallen := 1, gEnergy := 0 }

/-- The four signals a player handles, each with what its handler takes from
outside: `SIGUSR1` (with the outcome of the read), `SIGUSR2` (with the value of
`rand()`), `SIGALRM` and `SIGBUS`. -/
inductive Trigger
  | getReady (r : ReadResult)
  | startPulling (draw : Int)
  | reportEnergy
  | fall

/-- Whether a signal is `SIGALRM`, the request to report. -/
def isReportEnergy : Trigger → Bool
  | Trigger.reportEnergy => true
  | _ => false

/-- One signal handled: the globals afterwards and the values written to the
energy pipe. -/
def handleSignal (w : Worker) : Trigger → Worker × List Int
  | Trigger.getReady r => (handleGetReady w r, [])
  | Trigger.startPulling draw => (handleStartPulling w draw, [])
  | Trigger.reportEnergy => ((handleReportEnergy w).1, (handleReportEnergy w).2.toList)
  | Trigger.fall => (handleFall w, [])

/-- The loop `while (1) pause();` of `main` over a sequence of signals: the
globals afterwards and the values written, in order. -/
def handleSignals (w : Worker) : List Trigger → Worker × List Int
  | [] => (w, [])
  | t :: ts =>
    ((handleSignals (handleSignal w t).1 ts).1,
     (handleSignal w t).2 ++ (handleSignals (handleSignal w t).1 ts).2)

/-- The condition under which `isGameOver` answers 1. -/
def gameOverCond (state : GameState) : Prop :=
  state.roundNumber ≥ state.maxRounds ∨ state.consecutiveWinsTeam1 ≥ 2 ∨
    state.consecutiveWinsTeam2 ≥ 2

/-- The sum a loop of `collectEnergies` computes for the four pipes from `base` on. -/
def pipeTotal (base : Nat) (reads : Nat → ReadResult) : Int :=
  (List.range 4).foldl
    (fun t i =>
      if (reads (base + i)).ret > 0 then wrapInt (t + (reads (base + i)).rawVal) else t) 0

/-- The globals and the events of each tick when `timerRoundLogic` runs once
for each element of a list of read outcomes. -/
def runTicks (m : Machine) : List (Nat → ReadResult) → Machine × List (List Event)
  | [] => (m, [])
  | r :: rs =>
    let t := timerRoundLogic m r
    let rest := runTicks t.1 rs
    (rest.1, t.2 :: rest.2)

/-- The factor that the write back of array `t` leaves in a player with id `id`
whose factor was `f0`, when ids are distinct. -/
def newFactor (t : List Player) (f0 : Int) (id : Int) : Int :=
  (List.range 4).foldl
    (fun f i =>
      match t[i]? with
      | some x => if id = x.id then x.positionFactor else f
      | none => f)
    f0

/-- The factor `reorderTeams` gives a player whose team is the array `team`,
gathered in table order. -/
def rankOf (team : List Player) (p : Player) : Int :=
  newFactor (assignFactors (sortByEnergyAsc team)) p.positionFactor p.id

/-- What `reorderTeams` does to one player of the table `g`, when ids are
distinct. -/
def rerank (g : List Player) (p : Player) : Player :=
  { p with positionFactor :=
      (newFactor (assignFactors (sortByEnergyAsc (gatherTeam g 2)))
        (newFactor (assignFactors (sortByEnergyAsc (gatherTeam g 1))) p.positionFactor p.id)
        p.id) }

/-- The sum of the values that the players whose `team` field is `team` report,
player `k` of the table reporting on pipe `k`. -/
def teamReportSum (gPlayers : List Player) (reads : Nat → ReadResult) (team : Int) : Int :=
  (((List.range NUM_PLAYERS).filter
    (fun k => gPlayers[k]?.map (fun p => p.team) = some team)).map
    (fun k => (reads k).rawVal)).sum

/-! ## Sample data -/

/-- A player as `readConfigFile` and `initPlayers` leave it. -/
def samplePlayer (id team : Int) (energy x : ℚ) : Player :=
  { id := id, team := team, energy := energy, position := ⟨x, 300⟩,
    positionFactor := 1, fallen := 0 }

/-- A table of eight players, four per team, as in a configuration file. -/
def sampleTable : List Player :=
  [samplePlayer 1 1 100 50, samplePlayer 2 1 90 100, samplePlayer 3 1 95 150,
   samplePlayer 4 1 80 200, samplePlayer 5 2 85 750, samplePlayer 6 2 100 700,
   samplePlayer 7 2 90 650, samplePlayer 8 2 95 600]

/-- Every read succeeds: each player of team 1 reports `v1`, each of team 2 `v2`. -/
def uniformReads (v1 v2 : Int) (k : Nat) : ReadResult :=
  if k < 4 then ⟨4, v1⟩ else ⟨4, v2⟩

/-- Team 1 has, in table order, the energies 20, 20, 10, 30. -/
def unstableTable : List Player :=
  [samplePlayer 1 1 20 50, samplePlayer 2 1 20 100, samplePlayer 3 1 10 150,
   samplePlayer 4 1 30 200, samplePlayer 5 2 85 750, samplePlayer 6 2 100 700,
   samplePlayer 7 2 90 650, samplePlayer 8 2 95 600]

/-- Team 1 has, in table order, the energies 40, 10, 10, 30. -/
def tiedTable : List Player :=
  [samplePlayer 1 1 40 50, samplePlayer 2 1 10 100, samplePlayer 3 1 10 150,
   samplePlayer 4 1 30 200, samplePlayer 5 2 85 750, samplePlayer 6 2 100 700,
   samplePlayer 7 2 90 650, samplePlayer 8 2 95 600]

/-- A table of eight players in which the teams alternate. -/
def mixedTable : List Player :=
  [samplePlayer 1 1 100 50, samplePlayer 2 2 100 750, samplePlayer 3 1 100 100,
   samplePlayer 4 2 100 700, samplePlayer 5 1 100 150, samplePlayer 6 2 100 650,
   samplePlayer 7 1 100 200, samplePlayer 8 2 100 600]

/-- Every read succeeds: the players at even places report 100, the others 10. -/
def alternatingReads (k : Nat) : ReadResult :=
  if k % 2 = 0 then ⟨4, 100⟩ else ⟨4, 10⟩

/-- A player process as `main` of `player.c` starts it. -/
def sampleWorker : Worker :=
  { gPlayerID := 1, gTeamID := 1, gEnergy := 100, gPositionFactor := 1, gFallen := 0,
    gWriteFD := 4, gFactorReadFD := 5 }

/-- A player process started with the energy `2 ^ 54`. -/
def heavyWorker : Worker :=
  { gPlayerID := 1, gTeamID := 1, gEnergy := 18014398509481984, gPositionFactor := 1,
    gFallen := 0, gWriteFD := 4, gFactorReadFD := 5 }

/-- Every read succeeds and returns `2 ^ 30`. -/
def largeReads (_ : Nat) : ReadResult :=
  ⟨4, 1073741824⟩

/-! ## Ranking: `reorderTeams` -/

theorem sortByEnergyAsc_unfold (arr : List Player) :
    sortByEnergyAsc arr =
      compareSwap (compareSwap (compareSwap (compareSwap (compareSwap
        (compareSwap arr 0 1) 0 2) 0 3) 1 2) 1 3) 2 3 := by
  have h4 : List.range 4 = [0, 1, 2, 3] := by decide
  have r0 : List.range' (0 + 1) (4 - (0 + 1)) = [1, 2, 3] := by decide
  have r1 : List.range' (1 + 1) (4 - (1 + 1)) = [2, 3] := by decide
  have r2 : List.range' (2 + 1) (4 - (2 + 1)) = [3] := by decide
  have r3 : List.range' (3 + 1) (4 - (3 + 1)) = [] := by decide
  unfold sortByEnergyAsc
  rw [h4]
  simp only [List.foldl_cons, List.foldl_nil, r0, r1, r2, r3]

theorem compareSwap_01 (a b c d : Player) :
    compareSwap [a, b, c, d] 0 1 = if b.energy < a.energy then [b, a, c, d] else [a, b, c, d] :=
  rfl

theorem compareSwap_02 (a b c d : Player) :
    compareSwap [a, b, c, d] 0 2 = if c.energy < a.energy then [c, b, a, d] else [a, b, c, d] :=
  rfl

theorem compareSwap_03 (a b c d : Player) :
    compareSwap [a, b, c, d] 0 3 = if d.energy < a.energy then [d, b, c, a] else [a, b, c, d] :=
  rfl

theorem compareSwap_12 (a b c d : Player) :
    compareSwap [a, b, c, d] 1 2 = if c.energy < b.energy then [a, c, b, d] else [a, b, c, d] :=
  rfl

theorem compareSwap_13 (a b c d : Player) :
    compareSwap [a, b, c, d] 1 3 = if d.energy < b.energy then [a, d, c, b] else [a, b, c, d] :=
  rfl

theorem compareSwap_23 (a b c d : Player) :
    compareSwap [a, b, c, d] 2 3 = if d.energy < c.energy then [a, b, d, c] else [a, b, c, d] :=
  rfl

theorem assignFactors_four (a b c d : Player) :
    assignFactors [a, b, c, d] =
      [{ a with positionFactor := 1 }, { b with positionFactor := 2 },
       { c with positionFactor := 3 }, { d with positionFactor := 4 }] := rfl

theorem newFactor_four (a b c d : Player) (f0 id : Int) :
    newFactor [a, b, c, d] f0 id =
      if id = d.id then d.positionFactor
      else if id = c.id then c.positionFactor
      else if id = b.id then b.positionFactor
      else if id = a.id then a.positionFactor
      else f0 := rfl

set_option maxHeartbeats 1000000 in
theorem rank_four (a b c d : Player)
    (hab : a.id ≠ b.id) (hac : a.id ≠ c.id) (had : a.id ≠ d.id)
    (hbc : b.id ≠ c.id) (hbd : b.id ≠ d.id) (hcd : c.id ≠ d.id) :
    [rankOf [a, b, c, d] a, rankOf [a, b, c, d] b, rankOf [a, b, c, d] c,
      rankOf [a, b, c, d] d].Perm [1, 2, 3, 4] := by
  unfold rankOf
  rw [sortByEnergyAsc_unfold]
  rw [compareSwap_01]
  split_ifs <;> rw [compareSwap_02] <;> split_ifs <;>
    rw [compareSwap_03] <;> split_ifs <;>
    rw [compareSwap_12] <;> split_ifs <;>
    rw [compareSwap_13] <;> split_ifs <;>
    rw [compareSwap_23] <;> split_ifs <;>
    simp only [assignFactors_four, newFactor_four, hab, hac, had, hbc, hbd, hcd,
      hab.symm, hac.symm, had.symm, hbc.symm, hbd.symm, hcd.symm, if_true, if_false] <;>
    decide

theorem gatherTeamLoop_eq (team : Int) (l : List Player) :
    ∀ dest : List Player,
      dest.length + (l.filter (fun p => p.team = team)).length ≤ 4 →
      gatherTeamLoop team l dest = dest ++ l.filter (fun p => p.team = team) := by
  induction l with
  | nil => intro dest _; simp [gatherTeamLoop]
  | cons p rest ih =>
    intro dest h
    unfold gatherTeamLoop
    by_cases hp : p.team = team
    · have hf : (p :: rest).filter (fun p => p.team = team) =
          p :: rest.filter (fun p => p.team = team) := by simp [hp]
      rw [hf] at h ⊢
      simp only [List.length_cons] at h
      rw [if_pos hp]
      split_ifs with h4
      · have h0 : (rest.filter (fun p => p.team = team)).length = 0 := by
          simp only [List.length_append, List.length_singleton] at h4
          omega
        have h1 : rest.filter (fun p => p.team = team) = [] := List.length_eq_zero.mp h0
        rw [h1]
      · rw [ih (dest ++ [p])]
        · simp
        · simp only [List.length_append, List.length_singleton]
          omega
    · have hf : (p :: rest).filter (fun p => p.team = team) =
          rest.filter (fun p => p.team = team) := by simp [hp]
      rw [hf] at h ⊢
      rw [if_neg hp]
      exact ih dest h

theorem gatherTeam_eq_filter (g : List Player) (team : Int)
    (h : (g.filter (fun p => p.team = team)).length ≤ 4) :
    gatherTeam g team = g.filter (fun p => p.team = team) := by
  unfold gatherTeam
  rw [gatherTeamLoop_eq team g [] (by simpa using h)]
  rfl

theorem setFactorById_map (id f : Int) (φ : Player → Int) (l : List Player) :
    (l.map (fun p => p.id)).Nodup →
    setFactorById id f (l.map (fun p => { p with positionFactor := φ p })) =
      l.map (fun p => { p with positionFactor := if p.id = id then f else φ p }) := by
  induction l with
  | nil => intro _; rfl
  | cons p rest ih =>
    intro hnd
    simp only [List.map_cons, List.nodup_cons] at hnd ⊢
    unfold setFactorById
    by_cases hp : p.id = id
    · simp only [hp, if_true]
      congr 1
      apply List.map_congr_left
      intro q hq
      have hne : q.id ≠ id := by
        intro he
        apply hnd.1
        rw [hp, ← he]
        exact List.mem_map_of_mem (fun p => p.id) hq
      simp [hne]
    · simp only [hp, if_false]
      rw [ih hnd.2]

theorem writeBack_fold_map (t : List Player) (g : List Player)
    (hnd : (g.map (fun p => p.id)).Nodup) (idxs : List Nat) :
    ∀ φ : Player → Int,
      idxs.foldl
        (fun g i =>
          match t[i]? with
          | some p => setFactorById p.id p.positionFactor g
          | none => g)
        (g.map (fun p => { p with positionFactor := φ p })) =
      g.map (fun p => { p with positionFactor :=
        (idxs.foldl
          (fun f i =>
            match t[i]? with
            | some x => if p.id = x.id then x.positionFactor else f
            | none => f)
          (φ p)) }) := by
  induction idxs with
  | nil => intro φ; rfl
  | cons i rest ih =>
    intro φ
    simp only [List.foldl_cons]
    cases hti : t[i]? with
    | none => exact ih φ
    | some x =>
      simp only []
      rw [setFactorById_map x.id x.positionFactor φ g hnd]
      exact ih _

theorem writeBack_eq_map (t : List Player) (g : List Player) (φ : Player → Int)
    (hnd : (g.map (fun p => p.id)).Nodup) :
    writeBack t (g.map (fun p => { p with positionFactor := φ p })) =
      g.map (fun p => { p with positionFactor := newFactor t (φ p) p.id }) := by
  unfold writeBack newFactor
  exact writeBack_fold_map t g hnd _ φ

theorem reorderTeams_eq_map (g : List Player) (hnd : (g.map (fun p => p.id)).Nodup) :
    reorderTeams g =
      g.map (fun p => { p with positionFactor :=
        (newFactor (assignFactors (sortByEnergyAsc (gatherTeam g 2)))
          (newFactor (assignFactors (sortByEnergyAsc (gatherTeam g 1))) p.positionFactor p.id)
          p.id) }) := by
  unfold reorderTeams
  dsimp only
  have e1 := writeBack_eq_map (assignFactors (sortByEnergyAsc (gatherTeam g 1))) g
    (fun p => p.positionFactor) hnd
  have h0 : g.map (fun p => { p with positionFactor := p.positionFactor }) = g := by
    simp
  rw [h0] at e1
  rw [e1, writeBack_eq_map _ g _ hnd]

theorem newFactor_sorted_other (a b c d : Player) (f id : Int)
    (ha : id ≠ a.id) (hb : id ≠ b.id) (hc : id ≠ c.id) (hd : id ≠ d.id) :
    newFactor (assignFactors (sortByEnergyAsc [a, b, c, d])) f id = f := by
  rw [sortByEnergyAsc_unfold]
  rw [compareSwap_01]
  split_ifs <;> rw [compareSwap_02] <;> split_ifs <;>
    rw [compareSwap_03] <;> split_ifs <;>
    rw [compareSwap_12] <;> split_ifs <;>
    rw [compareSwap_13] <;> split_ifs <;>
    rw [compareSwap_23] <;> split_ifs <;>
    simp only [assignFactors_four, newFactor_four, ha, hb, hc, hd, if_false]

set_option maxHeartbeats 4000000 in
theorem rank_four_mono (a b c d : Player)
    (hab : a.id ≠ b.id) (hac : a.id ≠ c.id) (had : a.id ≠ d.id)
    (hbc : b.id ≠ c.id) (hbd : b.id ≠ d.id) (hcd : c.id ≠ d.id) :
    (a.energy < b.energy → rankOf [a, b, c, d] a < rankOf [a, b, c, d] b) ∧
    (a.energy < c.energy → rankOf [a, b, c, d] a < rankOf [a, b, c, d] c) ∧
    (a.energy < d.energy → rankOf [a, b, c, d] a < rankOf [a, b, c, d] d) ∧
    (b.energy < a.energy → rankOf [a, b, c, d] b < rankOf [a, b, c, d] a) ∧
    (b.energy < c.energy → rankOf [a, b, c, d] b < rankOf [a, b, c, d] c) ∧
    (b.energy < d.energy → rankOf [a, b, c, d] b < rankOf [a, b, c, d] d) ∧
    (c.energy < a.energy → rankOf [a, b, c, d] c < rankOf [a, b, c, d] a) ∧
    (c.energy < b.energy → rankOf [a, b, c, d] c < rankOf [a, b, c, d] b) ∧
    (c.energy < d.energy → rankOf [a, b, c, d] c < rankOf [a, b, c, d] d) ∧
    (d.energy < a.energy → rankOf [a, b, c, d] d < rankOf [a, b, c, d] a) ∧
    (d.energy < b.energy → rankOf [a, b, c, d] d < rankOf [a, b, c, d] b) ∧
    (d.energy < c.energy → rankOf [a, b, c, d] d < rankOf [a, b, c, d] c) := by
  unfold rankOf
  rw [sortByEnergyAsc_unfold]
  rw [compareSwap_01]
  split_ifs <;> rw [compareSwap_02] <;> split_ifs <;>
    rw [compareSwap_03] <;> split_ifs <;>
    rw [compareSwap_12] <;> split_ifs <;>
    rw [compareSwap_13] <;> split_ifs <;>
    rw [compareSwap_23] <;> split_ifs <;>
    simp only [assignFactors_four, newFactor_four, hab, hac, had, hbc, hbd, hcd,
      hab.symm, hac.symm, had.symm, hbc.symm, hbd.symm, hcd.symm, if_true, if_false] <;>
    refine ⟨?_, ?_, ?_, ?_, ?_, ?_, ?_, ?_, ?_, ?_, ?_, ?_⟩ <;> intro h <;>
    first
      | decide
      | (exfalso; linarith)

set_option maxHeartbeats 4000000 in
theorem rank_four_ties (a b c d : Player)
    (hab : a.id ≠ b.id) (hac : a.id ≠ c.id) (had : a.id ≠ d.id)
    (hbc : b.id ≠ c.id) (hbd : b.id ≠ d.id) (hcd : c.id ≠ d.id) :
    (a.energy = b.energy → ¬ c.energy < a.energy → ¬ d.energy < a.energy →
      rankOf [a, b, c, d] a < rankOf [a, b, c, d] b) ∧
    (a.energy = c.energy → ¬ d.energy < a.energy →
      rankOf [a, b, c, d] a < rankOf [a, b, c, d] c) ∧
    (a.energy = d.energy → rankOf [a, b, c, d] a < rankOf [a, b, c, d] d) ∧
    (b.energy = c.energy → ¬ d.energy < b.energy →
      rankOf [a, b, c, d] b < rankOf [a, b, c, d] c) ∧
    (b.energy = d.energy → rankOf [a, b, c, d] b < rankOf [a, b, c, d] d) ∧
    (c.energy = d.energy → rankOf [a, b, c, d] c < rankOf [a, b, c, d] d) := by
  unfold rankOf
  rw [sortByEnergyAsc_unfold]
  rw [compareSwap_01]
  split_ifs <;> rw [compareSwap_02] <;> split_ifs <;>
    rw [compareSwap_03] <;> split_ifs <;>
    rw [compareSwap_12] <;> split_ifs <;>
    rw [compareSwap_13] <;> split_ifs <;>
    rw [compareSwap_23] <;> split_ifs <;>
    simp only [assignFactors_four, newFactor_four, hab, hac, had, hbc, hbd, hcd,
      hab.symm, hac.symm, had.symm, hbc.symm, hbd.symm, hcd.symm, if_true, if_false] <;>
    refine ⟨?_, ?_, ?_, ?_, ?_, ?_⟩ <;> intros <;>
    first
      | decide
      | (exfalso; linarith)

theorem list_four {α : Type} (l : List α) (h : l.length = 4) :
    ∃ a b c d : α, l = [a, b, c, d] := by
  rcases l with _ | ⟨a, _ | ⟨b, _ | ⟨c, _ | ⟨d, _ | ⟨e, l⟩⟩⟩⟩⟩ <;> simp at h
  exact ⟨a, b, c, d, rfl⟩

theorem team_four (g : List Player) (hid : (g.map (fun p => p.id)).Nodup) (t : Int)
    (ht : (g.filter (fun p => p.team = t)).length = 4) :
    ∃ a b c d : Player, g.filter (fun p => p.team = t) = [a, b, c, d] ∧
      a.id ≠ b.id ∧ a.id ≠ c.id ∧ a.id ≠ d.id ∧ b.id ≠ c.id ∧ b.id ≠ d.id ∧ c.id ≠ d.id := by
  have hnd : ((g.filter (fun p => p.team = t)).map (fun p => p.id)).Nodup :=
    List.Nodup.sublist (List.Sublist.map _ (List.filter_sublist g)) hid
  obtain ⟨a, b, c, d, hF⟩ := list_four _ ht
  rw [hF] at hnd
  simp only [List.map_cons, List.map_nil, List.nodup_cons, List.mem_cons, List.mem_singleton,
    List.not_mem_nil, not_or, or_false, not_false_eq_true, List.nodup_nil, and_true] at hnd
  exact ⟨a, b, c, d, hF, hnd.1.1, hnd.1.2.1, hnd.1.2.2, hnd.2.1.1, hnd.2.1.2, hnd.2.2⟩

theorem id_ne_of_team_ne (g : List Player) (hid : (g.map (fun p => p.id)).Nodup)
    (p q : Player) (hp : p ∈ g) (hq : q ∈ g) (h : p.team ≠ q.team) : p.id ≠ q.id := by
  intro he
  have := List.inj_on_of_nodup_map hid hp hq he
  exact h (by rw [this])

/-- The factor `reorderTeams` leaves in a player of team 1 or 2 is its rank in
its own team. -/
theorem reorderTeams_factor (g : List Player) (hid : (g.map (fun p => p.id)).Nodup)
    (h1 : (g.filter (fun p => p.team = 1)).length = 4)
    (h2 : (g.filter (fun p => p.team = 2)).length = 4)
    (t : Int) (ht : t = 1 ∨ t = 2) (p : Player) (hp : p ∈ g) (hpt : p.team = t) :
    newFactor (assignFactors (sortByEnergyAsc (gatherTeam g 2)))
        (newFactor (assignFactors (sortByEnergyAsc (gatherTeam g 1))) p.positionFactor p.id)
        p.id =
      rankOf (g.filter (fun q => q.team = t)) p := by
  rw [gatherTeam_eq_filter g 1 (le_of_eq h1), gatherTeam_eq_filter g 2 (le_of_eq h2)]
  obtain ⟨a, b, c, d, hF1, -⟩ := team_four g hid 1 h1
  obtain ⟨a2, b2, c2, d2, hF2, -⟩ := team_four g hid 2 h2
  have mem1 : ∀ x ∈ [a, b, c, d], x ∈ g ∧ x.team = 1 := by
    intro x hx
    rw [← hF1] at hx
    simpa using hx
  have mem2 : ∀ x ∈ [a2, b2, c2, d2], x ∈ g ∧ x.team = 2 := by
    intro x hx
    rw [← hF2] at hx
    simpa using hx
  rcases ht with rfl | rfl
  · have hne : ∀ x ∈ [a2, b2, c2, d2], p.id ≠ x.id := by
      intro x hx
      apply id_ne_of_team_ne g hid p x hp (mem2 x hx).1
      rw [hpt, (mem2 x hx).2]
      decide
    rw [hF2, newFactor_sorted_other a2 b2 c2 d2 _ p.id (hne a2 (by simp)) (hne b2 (by simp))
      (hne c2 (by simp)) (hne d2 (by simp))]
    rfl
  · have hne : ∀ x ∈ [a, b, c, d], p.id ≠ x.id := by
      intro x hx
      apply id_ne_of_team_ne g hid p x hp (mem1 x hx).1
      rw [hpt, (mem1 x hx).2]
      decide
    rw [hF1, newFactor_sorted_other a b c d _ p.id (hne a (by simp)) (hne b (by simp))
      (hne c (by simp)) (hne d (by simp))]
    rfl

theorem reorderTeams_eq_map_rerank (g : List Player) (hid : (g.map (fun p => p.id)).Nodup) :
    reorderTeams g = g.map (rerank g) :=
  reorderTeams_eq_map g hid

theorem rerank_team (g : List Player) (p : Player) : (rerank g p).team = p.team := by
  unfold rerank
  rfl

theorem rerank_energy (g : List Player) (p : Player) : (rerank g p).energy = p.energy := by
  unfold rerank
  rfl

theorem rerank_erase (g : List Player) (p : Player) :
    { rerank g p with positionFactor := 0 } = { p with positionFactor := 0 } := by
  unfold rerank
  rfl

theorem rerank_factor (g : List Player) (hid : (g.map (fun p => p.id)).Nodup)
    (h1 : (g.filter (fun p => p.team = 1)).length = 4)
    (h2 : (g.filter (fun p => p.team = 2)).length = 4)
    (t : Int) (ht : t = 1 ∨ t = 2) (p : Player) (hp : p ∈ g) (hpt : p.team = t) :
    (rerank g p).positionFactor = rankOf (g.filter (fun q => q.team = t)) p := by
  have h := reorderTeams_factor g hid h1 h2 t ht p hp hpt
  unfold rerank
  dsimp only
  exact h

attribute [irreducible] rerank

/-- C2: for a table with distinct ids and exactly four players in each of the
teams 1 and 2, `reorderTeams` changes nothing but `positionFactor`; afterwards
the factors of each team are 1, 2, 3, 4, each used once; within a team a player
with strictly lower energy has a strictly lower factor; the player with factor
1 has the lowest energy of its team and the one with factor 4 the highest. -/
theorem reorderTeams_ranks (g : List Player)
    (hid : (g.map (fun p => p.id)).Nodup)
    (h1 : (g.filter (fun p => p.team = 1)).length = 4)
    (h2 : (g.filter (fun p => p.team = 2)).length = 4) :
    (reorderTeams g).map (fun p => { p with positionFactor := 0 }) =
      g.map (fun p => { p with positionFactor := 0 }) ∧
    ∀ t : Int, t = 1 ∨ t = 2 →
      (((reorderTeams g).filter (fun p => p.team = t)).map
        (fun p => p.positionFactor)).Perm [1, 2, 3, 4] ∧
      (∀ p ∈ reorderTeams g, ∀ q ∈ reorderTeams g, p.team = t → q.team = t →
        p.energy < q.energy → p.positionFactor < q.positionFactor) ∧
      (∀ p ∈ reorderTeams g, ∀ q ∈ reorderTeams g, p.team = t → q.team = t →
        (p.positionFactor = 1 → p.energy ≤ q.energy) ∧
        (p.positionFactor = 4 → q.energy ≤ p.energy)) := by
  rw [reorderTeams_eq_map_rerank g hid]
  constructor
  · rw [List.map_map]
    apply List.map_congr_left
    intro p _
    exact rerank_erase g p
  intro t ht
  have h4 : (g.filter (fun p => p.team = t)).length = 4 := by
    rcases ht with rfl | rfl
    · exact h1
    · exact h2
  obtain ⟨a, b, c, d, hF, hab, hac, had, hbc, hbd, hcd⟩ := team_four g hid t h4
  have memF : ∀ x, x ∈ [a, b, c, d] → x ∈ g ∧ x.team = t := by
    intro x hx
    rw [← hF] at hx
    simpa using hx
  have hr : ∀ x, x ∈ [a, b, c, d] → ((rerank g) x).positionFactor = rankOf [a, b, c, d] x := by
    intro x hx
    rw [← hF]
    exact rerank_factor g hid h1 h2 t ht x (memF x hx).1 (memF x hx).2
  have hperm : ((List.filter (fun p => p.team = t) (g.map (rerank g))).map
      (fun p => p.positionFactor)).Perm [1, 2, 3, 4] := by
    have e : List.filter (fun p => decide (p.team = t)) (g.map (rerank g)) =
        (List.filter (fun p => decide (p.team = t)) g).map (rerank g) := by
      rw [List.filter_map]
      congr 1
      apply List.filter_congr
      intro p _
      simp [rerank_team g p]
    rw [e, hF]
    simp only [List.map_cons, List.map_nil]
    rw [hr a (by simp), hr b (by simp), hr c (by simp), hr d (by simp)]
    exact rank_four a b c d hab hac had hbc hbd hcd
  have key : ∀ p ∈ g.map (rerank g), p.team = t →
      ∃ p0, p0 ∈ [a, b, c, d] ∧ p.energy = p0.energy ∧
        p.positionFactor = rankOf [a, b, c, d] p0 := by
    intro p hp hpt
    obtain ⟨p0, hp0, rfl⟩ := List.mem_map.mp hp
    have hp0F : p0 ∈ [a, b, c, d] := by
      rw [← hF]
      rw [rerank_team g p0] at hpt
      simpa using ⟨hp0, hpt⟩
    exact ⟨p0, hp0F, rerank_energy g p0, hr p0 hp0F⟩
  have hmono : ∀ p ∈ g.map (rerank g), ∀ q ∈ g.map (rerank g), p.team = t → q.team = t →
      p.energy < q.energy → p.positionFactor < q.positionFactor := by
    intro p hp q hq hpt hqt hlt
    obtain ⟨p0, hp0, hpe, hpf⟩ := key p hp hpt
    obtain ⟨q0, hq0, hqe, hqf⟩ := key q hq hqt
    rw [hpe, hqe] at hlt
    rw [hpf, hqf]
    have M := rank_four_mono a b c d hab hac had hbc hbd hcd
    simp only [List.mem_cons, List.mem_singleton, List.not_mem_nil, or_false] at hp0 hq0
    rcases hp0 with rfl | rfl | rfl | rfl <;> rcases hq0 with rfl | rfl | rfl | rfl
    · exact absurd hlt (lt_irrefl _)
    · exact M.1 hlt
    · exact M.2.1 hlt
    · exact M.2.2.1 hlt
    · exact M.2.2.2.1 hlt
    · exact absurd hlt (lt_irrefl _)
    · exact M.2.2.2.2.1 hlt
    · exact M.2.2.2.2.2.1 hlt
    · exact M.2.2.2.2.2.2.1 hlt
    · exact M.2.2.2.2.2.2.2.1 hlt
    · exact absurd hlt (lt_irrefl _)
    · exact M.2.2.2.2.2.2.2.2.1 hlt
    · exact M.2.2.2.2.2.2.2.2.2.1 hlt
    · exact M.2.2.2.2.2.2.2.2.2.2.1 hlt
    · exact M.2.2.2.2.2.2.2.2.2.2.2 hlt
    · exact absurd hlt (lt_irrefl _)
  have hrange : ∀ q ∈ g.map (rerank g), q.team = t → 1 ≤ q.positionFactor ∧ q.positionFactor ≤ 4 := by
    intro q hq hqt
    have hmem : q.positionFactor ∈ (List.filter (fun p => p.team = t) (g.map (rerank g))).map
        (fun p => p.positionFactor) := by
      refine List.mem_map.mpr ⟨q, ?_, rfl⟩
      exact List.mem_filter.mpr ⟨hq, by simpa using hqt⟩
    have h5 := (hperm.mem_iff).mp hmem
    simp only [List.mem_cons, List.mem_singleton, List.not_mem_nil, or_false] at h5
    omega
  refine ⟨hperm, hmono, ?_⟩
  intro p hp q hq hpt hqt
  constructor
  · intro hp1
    by_contra hlt
    have := hmono q hq p hp hqt hpt (not_le.mp hlt)
    have := (hrange q hq hqt).1
    omega
  · intro hp4
    by_contra hlt
    have := hmono p hp q hq hpt hqt (not_le.mp hlt)
    have := (hrange q hq hqt).2
    omega

/-- Ranks of the sample table: team 1 has the energies 100, 90, 95, 80. -/
theorem reorderTeams_ranks_witness :
    (((reorderTeams sampleTable).filter (fun p => p.team = 1)).map
      (fun p => p.positionFactor)).Perm [1, 2, 3, 4] ∧
    (reorderTeams sampleTable).map (fun p => p.positionFactor) = [4, 2, 3, 1, 1, 4, 2, 3] :=
  ⟨((reorderTeams_ranks sampleTable (by decide) (by decide) (by decide)).2 1 (Or.inl rfl)).1,
   by decide⟩

theorem getElem?_split {α : Type} (l : List α) (i : Nat) (x : α) (h : l[i]? = some x) :
    l = l.take i ++ x :: l.drop (i + 1) := by
  obtain ⟨hi, hx⟩ := List.getElem?_eq_some.mp h
  rw [← hx, ← List.drop_eq_getElem_cons hi, List.take_append_drop]

theorem two_split {α : Type} (g : List α) (m n : Nat) (p q : α) (hmn : m < n)
    (hp : g[m]? = some p) (hq : g[n]? = some q) :
    ∃ l1 l2 l3 : List α, g = l1 ++ p :: (l2 ++ q :: l3) ∧
      ∀ r ∈ l3, ∃ k : Nat, n < k ∧ g[k]? = some r := by
  have e1 := getElem?_split g m p hp
  have hq2 : (g.drop (m + 1))[n - (m + 1)]? = some q := by
    rw [List.getElem?_drop]
    rw [show m + 1 + (n - (m + 1)) = n by omega]
    exact hq
  have e2 := getElem?_split (g.drop (m + 1)) (n - (m + 1)) q hq2
  refine ⟨g.take m, (g.drop (m + 1)).take (n - (m + 1)),
    (g.drop (m + 1)).drop (n - (m + 1) + 1), ?_, ?_⟩
  · rw [← e2]
    exact e1
  · intro r hr
    obtain ⟨j, hj⟩ := List.mem_iff_getElem?.mp hr
    rw [List.getElem?_drop, List.getElem?_drop] at hj
    exact ⟨m + 1 + (n - (m + 1) + 1 + j), by omega, hj⟩

/-- C1 as the code has it: for a table with distinct ids and exactly four
players in each of the teams 1 and 2, two players of one team with equal energy
get different factors from `reorderTeams`, and the one that appears earlier in
`gPlayers` gets the strictly lower factor whenever no player of that team that
appears after the later of the two has strictly lower energy than they have. -/
theorem reorderTeams_ties (g : List Player)
    (hid : (g.map (fun p => p.id)).Nodup)
    (h1 : (g.filter (fun p => p.team = 1)).length = 4)
    (h2 : (g.filter (fun p => p.team = 2)).length = 4)
    (t : Int) (ht : t = 1 ∨ t = 2) (m n : Nat) (hmn : m < n) (p q p2 q2 : Player)
    (hp : g[m]? = some p) (hq : g[n]? = some q)
    (hp2 : (reorderTeams g)[m]? = some p2) (hq2 : (reorderTeams g)[n]? = some q2)
    (hpt : p.team = t) (hqt : q.team = t) (he : p.energy = q.energy) :
    p2.positionFactor ≠ q2.positionFactor ∧
    ((∀ (k : Nat) (r : Player), n < k → g[k]? = some r → r.team = t →
        ¬ r.energy < p.energy) →
      p2.positionFactor < q2.positionFactor) := by
  rw [reorderTeams_eq_map_rerank g hid, List.getElem?_map] at hp2 hq2
  rw [hp] at hp2
  rw [hq] at hq2
  simp only [Option.map_some', Option.some.injEq] at hp2 hq2
  subst hp2 hq2
  have h4 : (g.filter (fun p => p.team = t)).length = 4 := by
    rcases ht with rfl | rfl
    · exact h1
    · exact h2
  obtain ⟨a, b, c, d, hF, hab, hac, had, hbc, hbd, hcd⟩ := team_four g hid t h4
  have hpg : p ∈ g := List.mem_iff_getElem?.mpr ⟨m, hp⟩
  have hqg : q ∈ g := List.mem_iff_getElem?.mpr ⟨n, hq⟩
  rw [rerank_factor g hid h1 h2 t ht p hpg hpt, rerank_factor g hid h1 h2 t ht q hqg hqt, hF]
  obtain ⟨l1, l2, l3, hg, hl3⟩ := two_split g m n p q hmn hp hq
  have hsplit : l1.filter (fun x => x.team = t) ++
      p :: (l2.filter (fun x => x.team = t) ++ q :: l3.filter (fun x => x.team = t)) =
      [a, b, c, d] := by
    rw [← hF]
    conv_rhs => rw [hg]
    simp [List.filter_cons, hpt, hqt]
  have hlater : (∀ (k : Nat) (r : Player), n < k → g[k]? = some r → r.team = t →
      ¬ r.energy < p.energy) → ∀ r ∈ l3.filter (fun x => x.team = t), ¬ r.energy < p.energy := by
    intro hk r hr
    have hr2 := List.mem_filter.mp hr
    obtain ⟨k, hnk, hgk⟩ := hl3 r hr2.1
    exact hk k r hnk hgk (by simpa using hr2.2)
  have hnd : [rankOf [a, b, c, d] a, rankOf [a, b, c, d] b, rankOf [a, b, c, d] c,
      rankOf [a, b, c, d] d].Nodup :=
    (rank_four a b c d hab hac had hbc hbd hcd).nodup_iff.mpr (by decide)
  simp only [List.nodup_cons, List.mem_cons, List.mem_singleton, List.not_mem_nil, not_or,
    or_false, not_false_eq_true, List.nodup_nil, and_true] at hnd
  have T := rank_four_ties a b c d hab hac had hbc hbd hcd
  generalize l1.filter (fun x => x.team = t) = A at hsplit
  generalize l2.filter (fun x => x.team = t) = B at hsplit
  generalize l3.filter (fun x => x.team = t) = C at hsplit hlater
  rcases A with _ | ⟨x1, _ | ⟨x2, _ | ⟨x3, A⟩⟩⟩ <;>
    rcases B with _ | ⟨y1, _ | ⟨y2, _ | ⟨y3, B⟩⟩⟩ <;>
    simp only [List.nil_append, List.cons_append, List.cons.injEq, List.append_eq_nil,
      List.nil_eq, and_false, false_and, and_true, reduceCtorEq] at hsplit
  · obtain ⟨rfl, rfl, rfl⟩ := hsplit
    refine ⟨hnd.1.1, fun hk => T.1 he (hlater hk c (by simp)) (hlater hk d (by simp))⟩
  · obtain ⟨rfl, -, rfl, rfl⟩ := hsplit
    exact ⟨hnd.1.2.1, fun hk => T.2.1 he (hlater hk d (by simp))⟩
  · obtain ⟨rfl, -, -, rfl, -⟩ := hsplit
    exact ⟨hnd.1.2.2, fun _ => T.2.2.1 he⟩
  · obtain ⟨-, rfl, rfl, rfl⟩ := hsplit
    exact ⟨hnd.2.1.1, fun hk => T.2.2.2.1 he (hlater hk d (by simp))⟩
  · obtain ⟨-, rfl, -, rfl, -⟩ := hsplit
    exact ⟨hnd.2.1.2, fun _ => T.2.2.2.2.1 he⟩
  · obtain ⟨-, -, rfl, rfl, -⟩ := hsplit
    exact ⟨hnd.2.2, fun _ => T.2.2.2.2.2 he⟩
  all_goals
    have hlen := congrArg List.length hsplit.2.2.2
    simp only [List.length_append, List.length_cons, List.length_nil] at hlen
    omega

/-- C1, the counterexample: in a table with distinct ids and four players per
team, the players at places 0 and 1 are both of team 1 and both have energy 20,
and `reorderTeams` gives the earlier one factor 3 and the later one factor 2. -/
theorem reorderTeams_not_stable :
    (unstableTable.map (fun p => p.id)).Nodup ∧
    (unstableTable.filter (fun p => p.team = 1)).length = 4 ∧
    (unstableTable.filter (fun p => p.team = 2)).length = 4 ∧
    unstableTable[0]?.map (fun p => (p.team, p.energy)) = some (1, 20) ∧
    unstableTable[1]?.map (fun p => (p.team, p.energy)) = some (1, 20) ∧
    (reorderTeams unstableTable)[0]?.map (fun p => p.positionFactor) = some 3 ∧
    (reorderTeams unstableTable)[1]?.map (fun p => p.positionFactor) = some 2 := by
  decide

/-- The players at places 1 and 2 of a table whose team 1 has the energies
40, 10, 10, 30: they tie, the only later team mate has energy 30, and the
earlier one gets factor 1, the later one factor 2. -/
theorem reorderTeams_ties_witness :
    (reorderTeams tiedTable)[1]? = some { samplePlayer 2 1 10 100 with positionFactor := 1 } ∧
    (reorderTeams tiedTable)[2]? = some { samplePlayer 3 1 10 150 with positionFactor := 2 } ∧
    ({ samplePlayer 2 1 10 100 with positionFactor := 1 } : Player).positionFactor <
      ({ samplePlayer 3 1 10 150 with positionFactor := 2 } : Player).positionFactor :=
  ⟨by decide, by decide,
   (reorderTeams_ties tiedTable (by decide) (by decide) (by decide) 1 (Or.inl rfl) 1 2
      (by decide) (samplePlayer 2 1 10 100) (samplePlayer 3 1 10 150)
      { samplePlayer 2 1 10 100 with positionFactor := 1 }
      { samplePlayer 3 1 10 150 with positionFactor := 2 }
      (by decide) (by decide) (by decide) (by decide) rfl rfl rfl).2
      (by
        intro k r hk hr _
        rcases k with _ | _ | _ | _ | _ | _ | _ | _ | k
        · omega
        · omega
        · omega
        all_goals
          simp only [tiedTable, List.getElem?_cons_succ, List.getElem?_cons_zero,
            List.getElem?_nil, Option.some.injEq, reduceCtorEq] at hr
        all_goals
          subst hr
          decide)⟩

/-! ## Winner, round end and game over -/

/-- C3: `checkRoundWinner` returns 1 exactly when `sumTeam1 >= winThreshold`
(whatever `sumTeam2` is), 2 exactly when `sumTeam1 < winThreshold` and
`sumTeam2 >= winThreshold`, 0 exactly when both sums are below the threshold,
and it hands the state back unchanged. -/
theorem checkRoundWinner_spec (state : GameState) :
    ((checkRoundWinner state).1 = 1 ↔ state.sumTeam1 ≥ state.winThreshold) ∧
    ((checkRoundWinner state).1 = 2 ↔
      state.sumTeam1 < state.winThreshold ∧ state.sumTeam2 ≥ state.winThreshold) ∧
    ((checkRoundWinner state).1 = 0 ↔
      state.sumTeam1 < state.winThreshold ∧ state.sumTeam2 < state.winThreshold) ∧
    (checkRoundWinner state).2 = state := by
  unfold checkRoundWinner
  by_cases h1 : state.sumTeam1 ≥ state.winThreshold
  · simp [h1]
  · by_cases h2 : state.sumTeam2 ≥ state.winThreshold
    · have h1b : state.sumTeam1 < state.winThreshold := not_le.mp h1
      simp [h1, h2, h1b]
    · have h1b : state.sumTeam1 < state.winThreshold := not_le.mp h1
      have h2b : state.sumTeam2 < state.winThreshold := not_le.mp h2
      simp [h1, h2, h1b, h2b]

theorem isGameOver_snd (state : GameState) : (isGameOver state).2 = state := by
  unfold isGameOver
  split_ifs <;> rfl

theorem isGameOver_fst_cases (state : GameState) :
    ((isGameOver state).1 = 1 ∧ gameOverCond state) ∨
    ((isGameOver state).1 = 0 ∧ ¬ gameOverCond state) := by
  unfold isGameOver gameOverCond
  split_ifs with h1 h2
  · exact Or.inl ⟨rfl, Or.inl h1⟩
  · exact Or.inl ⟨rfl, Or.inr h2⟩
  · refine Or.inr ⟨rfl, ?_⟩
    rintro (h | h)
    · exact h1 h
    · exact h2 h

/-- C4: `isGameOver` returns true (1) if and only if `roundNumber >= maxRounds`
or one of the two streaks is at least 2, and false (0) otherwise; reaching
`maxRounds` ends the game whatever the streaks are, and a streak of 2 ends it
whatever the round number is. -/
theorem isGameOver_spec (state : GameState) :
    ((isGameOver state).1 = 1 ↔
      (state.roundNumber ≥ state.maxRounds ∨ state.consecutiveWinsTeam1 ≥ 2 ∨
        state.consecutiveWinsTeam2 ≥ 2)) ∧
    ((isGameOver state).1 = 0 ↔
      ¬ (state.roundNumber ≥ state.maxRounds ∨ state.consecutiveWinsTeam1 ≥ 2 ∨
        state.consecutiveWinsTeam2 ≥ 2)) ∧
    (state.roundNumber ≥ state.maxRounds → (isGameOver state).1 = 1) ∧
    (state.consecutiveWinsTeam1 ≥ 2 → (isGameOver state).1 = 1) ∧
    (state.consecutiveWinsTeam2 ≥ 2 → (isGameOver state).1 = 1) := by
  rcases isGameOver_fst_cases state with ⟨h, hc⟩ | ⟨h, hc⟩
  · rw [h]
    exact ⟨⟨fun _ => hc, fun _ => rfl⟩, ⟨fun h0 => absurd h0 (by decide), fun hn => absurd hc hn⟩,
      fun _ => rfl, fun _ => rfl, fun _ => rfl⟩
  · rw [h]
    exact ⟨⟨fun h0 => absurd h0 (by decide), fun hy => absurd hy hc⟩, ⟨fun _ => hc, fun _ => rfl⟩,
      fun h1 => absurd (Or.inl h1) hc, fun h1 => absurd (Or.inr (Or.inl h1)) hc,
      fun h1 => absurd (Or.inr (Or.inr h1)) hc⟩

/-- C5: `endRound` with `winningTeam = 1` adds one to `scoreTeam1` and to
`consecutiveWinsTeam1`, zeroes `consecutiveWinsTeam2`, takes one from
`ropeOffset` and keeps `scoreTeam2`; with `winningTeam = 2` it does the mirror
image; in both cases the two sums become 0 and `roundNumber`, `winThreshold`
and `maxRounds` are kept. -/
theorem endRound_winner (state : GameState) :
    ((endRound state 1).scoreTeam1 = state.scoreTeam1 + 1 ∧
      (endRound state 1).consecutiveWinsTeam1 = state.consecutiveWinsTeam1 + 1 ∧
      (endRound state 1).consecutiveWinsTeam2 = 0 ∧
      (endRound state 1).ropeOffset = state.ropeOffset - 1 ∧
      (endRound state 1).scoreTeam2 = state.scoreTeam2) ∧
    ((endRound state 2).scoreTeam2 = state.scoreTeam2 + 1 ∧
      (endRound state 2).consecutiveWinsTeam2 = state.consecutiveWinsTeam2 + 1 ∧
      (endRound state 2).consecutiveWinsTeam1 = 0 ∧
      (endRound state 2).ropeOffset = state.ropeOffset + 1 ∧
      (endRound state 2).scoreTeam1 = state.scoreTeam1) ∧
    (∀ w : Int, w = 1 ∨ w = 2 →
      (endRound state w).sumTeam1 = 0 ∧ (endRound state w).sumTeam2 = 0 ∧
      (endRound state w).roundNumber = state.roundNumber ∧
      (endRound state w).winThreshold = state.winThreshold ∧
      (endRound state w).maxRounds = state.maxRounds) := by
  refine ⟨by simp [endRound], by simp [endRound], ?_⟩
  intro w hw
  rcases hw with rfl | rfl <;> simp [endRound]

/-! ## The round timer: what a tick does to the globals -/

theorem collectOne_foldl_snd (base : Nat) (reads : Nat → ReadResult) (l : List Nat) :
    ∀ (g : List Player) (t : Int),
      (l.foldl (collectOne base reads) (g, t)).2 =
        l.foldl
          (fun t i =>
            if (reads (base + i)).ret > 0 then wrapInt (t + (reads (base + i)).rawVal) else t)
          t := by
  induction l with
  | nil => intro g t; rfl
  | cons i l ih =>
    intro g t
    simp only [List.foldl_cons]
    unfold collectOne
    split_ifs with h
    · exact ih _ _
    · exact ih _ _

theorem collectEnergies_fst (state : GameState) (g : List Player) (reads : Nat → ReadResult) :
    (collectEnergies state g reads).1 =
      { state with sumTeam1 := pipeTotal 0 reads, sumTeam2 := pipeTotal 4 reads } := by
  unfold collectEnergies pipeTotal
  simp only [collectOne_foldl_snd]

theorem checkRoundWinner_snd (state : GameState) : (checkRoundWinner state).2 = state := by
  unfold checkRoundWinner
  split_ifs <;> rfl

theorem checkRoundWinner_fst_cases (state : GameState) :
    ((checkRoundWinner state).1 = 1 ∧ state.sumTeam1 ≥ state.winThreshold) ∨
    ((checkRoundWinner state).1 = 2 ∧ state.sumTeam1 < state.winThreshold ∧
      state.sumTeam2 ≥ state.winThreshold) ∨
    ((checkRoundWinner state).1 = 0 ∧ state.sumTeam1 < state.winThreshold ∧
      state.sumTeam2 < state.winThreshold) := by
  unfold checkRoundWinner
  split_ifs with h1 h2
  · exact Or.inl ⟨rfl, h1⟩
  · exact Or.inr (Or.inl ⟨rfl, not_le.mp h1, h2⟩)
  · exact Or.inr (Or.inr ⟨rfl, not_le.mp h1, not_le.mp h2⟩)

/-- The three ways `evaluateRound` leaves the globals. -/
theorem evaluateRound_fst (m : Machine) (ev : List Event) :
    (evaluateRound m ev).1 =
      if (checkRoundWinner m.gState).1 ≠ 0 then
        { m with gState := endRound m.gState (checkRoundWinner m.gState).1, roundInProgress := 0 }
      else if m.secondCount + 1 ≥ 10 then
        { m with gState := endRound m.gState 0, roundInProgress := 0,
                 secondCount := m.secondCount + 1 }
      else { m with secondCount := m.secondCount + 1 } := by
  unfold evaluateRound
  simp only [isGameOver_snd, checkRoundWinner_snd]
  split_ifs <;> rfl

theorem timerRoundLogic_fst (m : Machine) (reads : Nat → ReadResult) :
    (timerRoundLogic m reads).1 =
      if (isGameOver m.gState).1 ≠ 0 then m
      else (evaluateRound (collectPhase m reads).1 (collectPhase m reads).2).1 := by
  unfold timerRoundLogic
  simp only [isGameOver_snd]
  split_ifs with h1
  · rfl
  · rfl

theorem collectPhase_gState (m : Machine) (reads : Nat → ReadResult) :
    (collectPhase m reads).1.gState =
      { m.gState with
        roundNumber := if m.roundInProgress = 0 then m.gState.roundNumber + 1
          else m.gState.roundNumber
        sumTeam1 := pipeTotal 0 reads
        sumTeam2 := pipeTotal 4 reads } := by
  unfold collectPhase
  simp only [collectEnergies_fst]
  split_ifs with h
  · rfl
  · rfl

theorem collectPhase_roundInProgress (m : Machine) (reads : Nat → ReadResult) :
    (collectPhase m reads).1.roundInProgress = if m.roundInProgress = 0 then 1
      else m.roundInProgress := by
  unfold collectPhase
  split_ifs with h
  · rfl
  · rfl

theorem collectPhase_secondCount (m : Machine) (reads : Nat → ReadResult) :
    (collectPhase m reads).1.secondCount = if m.roundInProgress = 0 then 0
      else m.secondCount := by
  unfold collectPhase
  split_ifs with h
  · rfl
  · rfl

theorem collectPhase_collects (m : Machine) (reads : Nat → ReadResult) :
    Event.collect ∈ (collectPhase m reads).2 := by
  unfold collectPhase
  simp

theorem evaluateRound_events (m : Machine) (ev : List Event) :
    ∀ e ∈ ev, e ∈ (evaluateRound m ev).2 := by
  intro e he
  unfold evaluateRound
  dsimp only
  split_ifs <;> exact List.mem_append_left _ he

/-- The streak fields after `endRound`, for any argument. -/
theorem endRound_streaks (state : GameState) (w : Int) :
    ¬ (0 < state.consecutiveWinsTeam1 ∧ 0 < state.consecutiveWinsTeam2) →
    ¬ (0 < (endRound state w).consecutiveWinsTeam1 ∧
        0 < (endRound state w).consecutiveWinsTeam2) := by
  intro h
  unfold endRound
  split_ifs with h1 h2
  · simp
  · simp
  · simpa using h

theorem timerRoundLogic_streaks (m : Machine) (reads : Nat → ReadResult)
    (h : ¬ (0 < m.gState.consecutiveWinsTeam1 ∧ 0 < m.gState.consecutiveWinsTeam2)) :
    ¬ (0 < (timerRoundLogic m reads).1.gState.consecutiveWinsTeam1 ∧
        0 < (timerRoundLogic m reads).1.gState.consecutiveWinsTeam2) := by
  rw [timerRoundLogic_fst]
  split_ifs with h1
  · exact h
  · rw [evaluateRound_fst]
    have hc : ¬ (0 < (collectPhase m reads).1.gState.consecutiveWinsTeam1 ∧
        0 < (collectPhase m reads).1.gState.consecutiveWinsTeam2) := by
      rw [collectPhase_gState]
      exact h
    split_ifs with h2 h3
    · exact endRound_streaks _ _ hc
    · exact endRound_streaks _ _ hc
    · exact hc

theorem applyCall_streaks (sp : GameState × List Player) (c : RefereeCall)
    (h : ¬ (0 < sp.1.consecutiveWinsTeam1 ∧ 0 < sp.1.consecutiveWinsTeam2)) :
    ¬ (0 < (applyCall sp c).1.consecutiveWinsTeam1 ∧
        0 < (applyCall sp c).1.consecutiveWinsTeam2) := by
  cases c with
  | startRound => exact h
  | endRound w => exact endRound_streaks _ _ h

theorem foldl_applyCall_streaks (calls : List RefereeCall) :
    ∀ sp : GameState × List Player,
      ¬ (0 < sp.1.consecutiveWinsTeam1 ∧ 0 < sp.1.consecutiveWinsTeam2) →
      ¬ (0 < (calls.foldl applyCall sp).1.consecutiveWinsTeam1 ∧
          0 < (calls.foldl applyCall sp).1.consecutiveWinsTeam2) := by
  induction calls with
  | nil => intro sp h; exact h
  | cons c rest ih =>
    intro sp h
    exact ih _ (applyCall_streaks sp c h)

/-- C6: in every state reachable from the `initGameLogic` state by ticks of
`timerRoundLogic`, and after every sequence of `startRound` and `endRound` calls
with arbitrary `winningTeam` arguments from that state, the two streak counters
are never both greater than 0. -/
theorem streaks_never_both_positive (players : List Player) :
    (∀ m : Machine, Reachable players m →
      ¬ (0 < m.gState.consecutiveWinsTeam1 ∧ 0 < m.gState.consecutiveWinsTeam2)) ∧
    (∀ calls : List RefereeCall,
      ¬ (0 < (calls.foldl applyCall
            ((initMachine players).gState, players)).1.consecutiveWinsTeam1 ∧
          0 < (calls.foldl applyCall
            ((initMachine players).gState, players)).1.consecutiveWinsTeam2)) := by
  constructor
  · intro m hm
    induction hm with
    | init => simp [initMachine, initGameLogic]
    | tick m reads _ ih => exact timerRoundLogic_streaks m reads ih
  · intro calls
    apply foldl_applyCall_streaks
    simp [initMachine, initGameLogic]

theorem endRound_sums (state : GameState) (w : Int) :
    (endRound state w).sumTeam1 = 0 ∧ (endRound state w).sumTeam2 = 0 := by
  unfold endRound
  exact ⟨rfl, rfl⟩

theorem timerRoundLogic_sums (m : Machine) (reads : Nat → ReadResult)
    (h : m.roundInProgress = 0 → m.gState.sumTeam1 = 0 ∧ m.gState.sumTeam2 = 0) :
    (timerRoundLogic m reads).1.roundInProgress = 0 →
      (timerRoundLogic m reads).1.gState.sumTeam1 = 0 ∧
      (timerRoundLogic m reads).1.gState.sumTeam2 = 0 := by
  rw [timerRoundLogic_fst]
  split_ifs with h1
  · exact h
  · rw [evaluateRound_fst]
    split_ifs with h2 h3
    · intro _
      exact endRound_sums _ _
    · intro _
      exact endRound_sums _ _
    · intro h0
      have h4 : (collectPhase m reads).1.roundInProgress = 0 := h0
      rw [collectPhase_roundInProgress] at h4
      split_ifs at h4 with h5
      · exact absurd h4 (by decide)
      · exact absurd h4 h5

/-- C7: in every state reachable by ticks of `timerRoundLogic` from the
`initGameLogic` state, whatever the reads of each tick return, when no round is
in progress both sums are 0; so they are 0 in the state a round begins
from (also after the block that begins it) and in the state a tick leaves when
it has ended a round. -/
theorem sums_zero_between_rounds (players : List Player) (m : Machine)
    (reads : Nat → ReadResult) (hm : Reachable players m) :
    (m.roundInProgress = 0 → m.gState.sumTeam1 = 0 ∧ m.gState.sumTeam2 = 0) ∧
    (m.roundInProgress = 0 →
      (beginRound m).1.gState.sumTeam1 = 0 ∧ (beginRound m).1.gState.sumTeam2 = 0) ∧
    ((timerRoundLogic m reads).1.roundInProgress = 0 →
      (timerRoundLogic m reads).1.gState.sumTeam1 = 0 ∧
      (timerRoundLogic m reads).1.gState.sumTeam2 = 0) := by
  have key : m.roundInProgress = 0 → m.gState.sumTeam1 = 0 ∧ m.gState.sumTeam2 = 0 := by
    induction hm with
    | init => intro _; simp [initMachine, initGameLogic]
    | tick m0 r _ ih => exact timerRoundLogic_sums m0 r ih
  exact ⟨key, fun h0 => key h0, timerRoundLogic_sums m reads key⟩

/-- A state in which a round has just ended: team 1 won the first tick. -/
theorem sums_zero_between_rounds_witness :
    (timerRoundLogic (initMachine sampleTable) (uniformReads 125 50)).1.roundInProgress = 0 ∧
    (timerRoundLogic (initMachine sampleTable) (uniformReads 125 50)).1.gState.sumTeam1 = 0 ∧
    (timerRoundLogic (initMachine sampleTable) (uniformReads 125 50)).1.gState.sumTeam2 = 0 :=
  ⟨by decide,
   (sums_zero_between_rounds sampleTable _ (uniformReads 0 0)
      (Reachable.tick _ _ Reachable.init)).1 (by decide)⟩

/-- C9: from the `initGameLogic` state (threshold 500, 5 rounds, no round in
progress), two ticks in a row in each of which the collected `sumTeam1` is at
least 500 lead to `scoreTeam1 = 2`, `scoreTeam2 = 0`, `consecutiveWinsTeam1 = 2`
and `roundNumber = 2`, below `maxRounds`, and `isGameOver` is true there; it was
false after the first of the two ticks. -/
theorem two_wins_end_game (players : List Player) (r1 r2 : Nat → ReadResult)
    (h1 : (collectPhase (initMachine players) r1).1.gState.sumTeam1 ≥ 500)
    (h2 : (collectPhase (timerRoundLogic (initMachine players) r1).1 r2).1.gState.sumTeam1
      ≥ 500) :
    (initMachine players).gState.winThreshold = 500 ∧
    (initMachine players).gState.maxRounds = 5 ∧
    (initMachine players).roundInProgress = 0 ∧
    (timerRoundLogic (timerRoundLogic (initMachine players) r1).1 r2).1.gState.scoreTeam1 = 2 ∧
    (timerRoundLogic (timerRoundLogic (initMachine players) r1).1 r2).1.gState.scoreTeam2 = 0 ∧
    (timerRoundLogic (timerRoundLogic (initMachine players) r1).1
      r2).1.gState.consecutiveWinsTeam1 = 2 ∧
    (timerRoundLogic (timerRoundLogic (initMachine players) r1).1 r2).1.gState.roundNumber = 2 ∧
    (timerRoundLogic (timerRoundLogic (initMachine players) r1).1 r2).1.gState.roundNumber <
      (timerRoundLogic (timerRoundLogic (initMachine players) r1).1 r2).1.gState.maxRounds ∧
    (isGameOver (timerRoundLogic (timerRoundLogic (initMachine players) r1).1 r2).1.gState).1
      = 1 ∧
    (isGameOver (timerRoundLogic (initMachine players) r1).1.gState).1 = 0 := by
  rw [collectPhase_gState] at h1
  have h1b : pipeTotal 0 r1 ≥ 500 := h1
  have e1 : (timerRoundLogic (initMachine players) r1).1 =
      { gState := { initGameLogic ⟨0, 0, 0, 0, 0, 0, 0, 0, 0, 0, 0⟩ with
          roundNumber := 1, scoreTeam1 := 1, consecutiveWinsTeam1 := 1, ropeOffset := -1 }
        gPlayers := (collectPhase (initMachine players) r1).1.gPlayers
        roundInProgress := 0
        secondCount := 0 } := by
    rw [timerRoundLogic_fst, evaluateRound_fst]
    have hw : (checkRoundWinner (collectPhase (initMachine players) r1).1.gState).1 = 1 := by
      rw [collectPhase_gState]
      unfold checkRoundWinner
      rw [if_pos]
      exact h1b
    rw [hw, collectPhase_gState, collectPhase_secondCount]
    simp [initMachine, initGameLogic, isGameOver, endRound]
  rw [e1] at h2 ⊢
  rw [collectPhase_gState] at h2
  have h2b : pipeTotal 0 r2 ≥ 500 := h2
  rw [timerRoundLogic_fst, evaluateRound_fst]
  have hw : ∀ g : List Player, (checkRoundWinner (collectPhase
      { gState := { initGameLogic ⟨0, 0, 0, 0, 0, 0, 0, 0, 0, 0, 0⟩ with
          roundNumber := 1, scoreTeam1 := 1, consecutiveWinsTeam1 := 1, ropeOffset := -1 }
        gPlayers := g
        roundInProgress := 0
        secondCount := 0 } r2).1.gState).1 = 1 := by
    intro g
    rw [collectPhase_gState]
    unfold checkRoundWinner
    rw [if_pos]
    exact h2b
  rw [hw, collectPhase_gState]
  simp [initMachine, initGameLogic, isGameOver, endRound]

/-- Two ticks in which every player of team 1 reports 125. -/
theorem two_wins_end_game_witness :
    (collectPhase (initMachine sampleTable) (uniformReads 125 50)).1.gState.sumTeam1 ≥ 500 ∧
    (timerRoundLogic (timerRoundLogic (initMachine sampleTable) (uniformReads 125 50)).1
      (uniformReads 130 60)).1.gState.scoreTeam1 = 2 ∧
    (isGameOver (timerRoundLogic (timerRoundLogic (initMachine sampleTable)
      (uniformReads 125 50)).1 (uniformReads 130 60)).1.gState).1 = 1 :=
  have h := two_wins_end_game sampleTable (uniformReads 125 50) (uniformReads 130 60)
    (by decide) (by decide)
  ⟨by decide, h.2.2.2.1, h.2.2.2.2.2.2.2.2.1⟩

/-- C10: a tick that collects for a round in progress and finds both sums below
`winThreshold` ends the round without a winner when it brings `secondCount` to
10: scores, streaks and `ropeOffset` are kept, both sums are 0 and no round is
in progress; while the counter stays below 10 the round stays in progress and
scores and streaks are kept. -/
theorem draw_path (m : Machine) (reads : Nat → ReadResult)
    (hover : (isGameOver m.gState).1 = 0) (hrip : m.roundInProgress ≠ 0)
    (h1 : (collectPhase m reads).1.gState.sumTeam1 < m.gState.winThreshold)
    (h2 : (collectPhase m reads).1.gState.sumTeam2 < m.gState.winThreshold) :
    Event.collect ∈ (timerRoundLogic m reads).2 ∧
    (timerRoundLogic m reads).1.secondCount = m.secondCount + 1 ∧
    (timerRoundLogic m reads).1.gState.scoreTeam1 = m.gState.scoreTeam1 ∧
    (timerRoundLogic m reads).1.gState.scoreTeam2 = m.gState.scoreTeam2 ∧
    (timerRoundLogic m reads).1.gState.consecutiveWinsTeam1 = m.gState.consecutiveWinsTeam1 ∧
    (timerRoundLogic m reads).1.gState.consecutiveWinsTeam2 = m.gState.consecutiveWinsTeam2 ∧
    (m.secondCount + 1 ≥ 10 →
      (timerRoundLogic m reads).1.gState.ropeOffset = m.gState.ropeOffset ∧
      (timerRoundLogic m reads).1.gState.sumTeam1 = 0 ∧
      (timerRoundLogic m reads).1.gState.sumTeam2 = 0 ∧
      (timerRoundLogic m reads).1.roundInProgress = 0) ∧
    (m.secondCount + 1 < 10 →
      (timerRoundLogic m reads).1.roundInProgress = m.roundInProgress) := by
  have hev : Event.collect ∈ (timerRoundLogic m reads).2 := by
    unfold timerRoundLogic
    simp only [isGameOver_snd]
    rw [if_neg (by simpa using hover)]
    exact evaluateRound_events _ _ _ (collectPhase_collects _ _)
  have hw : (checkRoundWinner (collectPhase m reads).1.gState).1 = 0 := by
    rcases checkRoundWinner_fst_cases (collectPhase m reads).1.gState with h | h | h
    · have h3 := h.2
      rw [collectPhase_gState] at h1 h3
      exact absurd h3 (not_le.mpr h1)
    · have h3 := h.2.2
      rw [collectPhase_gState] at h2 h3
      exact absurd h3 (not_le.mpr h2)
    · exact h.1
  refine ⟨hev, ?_⟩
  rw [timerRoundLogic_fst, if_neg (by simpa using hover), evaluateRound_fst, hw,
    collectPhase_secondCount, collectPhase_gState, collectPhase_roundInProgress]
  simp only [if_neg hrip]
  by_cases hc : m.secondCount + 1 ≥ 10
  · simp [hc, endRound]
  · simp [hc]

/-- The tenth tick of a first round in which nobody reaches the threshold. -/
theorem draw_path_witness :
    (runTicks (initMachine sampleTable) (List.replicate 9 (uniformReads 50 50))).1.secondCount
      = 9 ∧
    (timerRoundLogic
      (runTicks (initMachine sampleTable) (List.replicate 9 (uniformReads 50 50))).1
      (uniformReads 50 50)).1.roundInProgress = 0 :=
  ⟨by decide,
   ((draw_path (runTicks (initMachine sampleTable) (List.replicate 9 (uniformReads 50 50))).1
      (uniformReads 50 50) (by decide) (by decide) (by decide) (by decide)).2.2.2.2.2.2.1
      (by decide)).2.2.2⟩

theorem timerRoundLogic_over (m : Machine) (reads : Nat → ReadResult)
    (h : (isGameOver m.gState).1 ≠ 0) :
    timerRoundLogic m reads = (m, [Event.gameOver m.gState.scoreTeam1 m.gState.scoreTeam2]) := by
  unfold timerRoundLogic
  simp only [isGameOver_snd]
  rw [if_pos h]

theorem runTicks_reachable (players : List Player) (rs : List (Nat → ReadResult)) :
    ∀ m : Machine, Reachable players m → Reachable players (runTicks m rs).1 := by
  induction rs with
  | nil => intro m hm; exact hm
  | cons r rest ih =>
    intro m hm
    exact ih _ (Reachable.tick m r hm)

/-- C8, evaluated on the code: the winners of rounds 1 to 4 alternate, the first
tick of round 5 finds no winner.  Every one of these five ticks registers the
next one, and the state they lead to is reachable, has a round in progress,
`roundNumber = maxRounds = 5`, both sums below the threshold and one tick
elapsed; yet the next tick, whatever its reads return, only reports the game
over: it collects nothing, changes nothing and registers no further tick. -/
theorem final_round_cut_short :
    Reachable sampleTable
      (runTicks (initMachine sampleTable)
        [uniformReads 125 50, uniformReads 50 125, uniformReads 125 50, uniformReads 50 125,
         uniformReads 50 50]).1 ∧
    (∀ ev ∈ (runTicks (initMachine sampleTable)
        [uniformReads 125 50, uniformReads 50 125, uniformReads 125 50, uniformReads 50 125,
         uniformReads 50 50]).2, Event.timer ∈ ev) ∧
    (runTicks (initMachine sampleTable)
        [uniformReads 125 50, uniformReads 50 125, uniformReads 125 50, uniformReads 50 125,
         uniformReads 50 50]).1 =
      { gState := { roundNumber := 5, scoreTeam1 := 2, scoreTeam2 := 2,
                    consecutiveWinsTeam1 := 0, consecutiveWinsTeam2 := 1,
                    winThreshold := 500, maxRounds := 5, currentTime := 0,
                    sumTeam1 := 200, sumTeam2 := 200, ropeOffset := 0 }
        gPlayers := (runTicks (initMachine sampleTable)
          [uniformReads 125 50, uniformReads 50 125, uniformReads 125 50, uniformReads 50 125,
           uniformReads 50 50]).1.gPlayers
        roundInProgress := 1
        secondCount := 1 } ∧
    (∀ reads : Nat → ReadResult,
      timerRoundLogic (runTicks (initMachine sampleTable)
        [uniformReads 125 50, uniformReads 50 125, uniformReads 125 50, uniformReads 50 125,
         uniformReads 50 50]).1 reads =
      ((runTicks (initMachine sampleTable)
        [uniformReads 125 50, uniformReads 50 125, uniformReads 125 50, uniformReads 50 125,
         uniformReads 50 50]).1, [Event.gameOver 2 2])) := by
  refine ⟨runTicks_reachable _ _ _ Reachable.init, by decide, by decide, ?_⟩
  intro reads
  rw [timerRoundLogic_over _ _ (by decide)]
  exact Prod.ext rfl (by decide)

/-! ## The cap on the round number -/

theorem endRound_rounds (state : GameState) (w : Int) :
    (endRound state w).roundNumber = state.roundNumber ∧
    (endRound state w).maxRounds = state.maxRounds := by
  unfold endRound
  split_ifs <;> exact ⟨rfl, rfl⟩

/-- What a tick does to `roundNumber` and `maxRounds`. -/
theorem timerRoundLogic_rounds (m : Machine) (reads : Nat → ReadResult) :
    (timerRoundLogic m reads).1.gState.maxRounds = m.gState.maxRounds ∧
    ((timerRoundLogic m reads).1.gState.roundNumber = m.gState.roundNumber ∨
      ((timerRoundLogic m reads).1.gState.roundNumber = m.gState.roundNumber + 1 ∧
        m.gState.roundNumber < m.gState.maxRounds)) := by
  rw [timerRoundLogic_fst]
  rcases isGameOver_fst_cases m.gState with ⟨h, _⟩ | ⟨h, hc⟩
  · rw [if_pos (by rw [h]; decide)]
    exact ⟨rfl, Or.inl rfl⟩
  · rw [if_neg (by rw [h]; decide)]
    have hlt : m.gState.roundNumber < m.gState.maxRounds := by
      by_contra hge
      exact hc (Or.inl (not_lt.mp hge))
    have hcm : (collectPhase m reads).1.gState.maxRounds = m.gState.maxRounds := by
      rw [collectPhase_gState]
    have hcr : (collectPhase m reads).1.gState.roundNumber = m.gState.roundNumber ∨
        (collectPhase m reads).1.gState.roundNumber = m.gState.roundNumber + 1 := by
      rw [collectPhase_gState]
      by_cases h0 : m.roundInProgress = 0
      · right
        simp [h0]
      · left
        simp [h0]
    rw [evaluateRound_fst]
    split_ifs with h2 h3
    · refine ⟨by rw [← hcm]; exact (endRound_rounds _ _).2, ?_⟩
      rcases hcr with e | e
      · exact Or.inl (by rw [← e]; exact (endRound_rounds _ _).1)
      · exact Or.inr ⟨by rw [← e]; exact (endRound_rounds _ _).1, hlt⟩
    · refine ⟨by rw [← hcm]; exact (endRound_rounds _ _).2, ?_⟩
      rcases hcr with e | e
      · exact Or.inl (by rw [← e]; exact (endRound_rounds _ _).1)
      · exact Or.inr ⟨by rw [← e]; exact (endRound_rounds _ _).1, hlt⟩
    · refine ⟨hcm, ?_⟩
      rcases hcr with e | e
      · exact Or.inl e
      · exact Or.inr ⟨e, hlt⟩

/-- C11: in every state reachable by ticks of `timerRoundLogic` from the
`initGameLogic` state, `0 <= roundNumber <= maxRounds` (and `maxRounds` is still
5), and a tick from such a state, whatever its reads return, does not decrease
`roundNumber`. -/
theorem roundNumber_capped (players : List Player) (m : Machine)
    (reads : Nat → ReadResult) (hm : Reachable players m) :
    0 ≤ m.gState.roundNumber ∧ m.gState.roundNumber ≤ m.gState.maxRounds ∧
    m.gState.maxRounds = 5 ∧
    m.gState.roundNumber ≤ (timerRoundLogic m reads).1.gState.roundNumber := by
  have key : 0 ≤ m.gState.roundNumber ∧ m.gState.roundNumber ≤ m.gState.maxRounds ∧
      m.gState.maxRounds = 5 := by
    induction hm with
    | init => simp [initMachine, initGameLogic]
    | tick m0 r _ ih =>
      obtain ⟨hmax, hr⟩ := timerRoundLogic_rounds m0 r
      rw [hmax]
      rcases hr with e | ⟨e, hlt⟩
      · rw [e]
        exact ih
      · rw [e]
        exact ⟨by omega, by omega, ih.2.2⟩
  refine ⟨key.1, key.2.1, key.2.2, ?_⟩
  rcases (timerRoundLogic_rounds m reads).2 with e | ⟨e, _⟩
  · rw [e]
  · rw [e]
    omega

/-- The state after the first tick of round 5: `roundNumber` is at the cap. -/
theorem roundNumber_capped_witness :
    (runTicks (initMachine sampleTable)
      [uniformReads 125 50, uniformReads 50 125, uniformReads 125 50, uniformReads 50 125,
       uniformReads 50 50]).1.gState.roundNumber = 5 ∧
    (runTicks (initMachine sampleTable)
      [uniformReads 125 50, uniformReads 50 125, uniformReads 125 50, uniformReads 50 125,
       uniformReads 50 50]).1.gState.roundNumber ≤
    (runTicks (initMachine sampleTable)
      [uniformReads 125 50, uniformReads 50 125, uniformReads 125 50, uniformReads 50 125,
       uniformReads 50 50]).1.gState.maxRounds :=
  ⟨by decide,
   (roundNumber_capped sampleTable _ (uniformReads 50 50)
      (runTicks_reachable sampleTable _ _ Reachable.init)).2.1⟩

/-! ## Rounding to a double -/

theorem roundHalfEven_intCast (n : Int) : roundHalfEven (n : ℚ) = n := by
  unfold roundHalfEven
  rw [Int.floor_intCast]
  rw [if_pos (by norm_num)]

theorem roundHalfEven_le (q : ℚ) (k : Int) (h : q ≤ (k : ℚ)) : roundHalfEven q ≤ k := by
  have hf : ⌊q⌋ ≤ k := by
    have h0 := Int.floor_le_floor h
    rwa [Int.floor_intCast] at h0
  unfold roundHalfEven
  split_ifs with h1 h2 h3
  · exact hf
  · rcases lt_or_eq_of_le hf with hlt | heq
    · omega
    · exfalso
      have : (⌊q⌋ : ℚ) ≤ q := Int.floor_le q
      rw [heq] at h2 this
      linarith
  · exact hf
  · rcases lt_or_eq_of_le hf with hlt | heq
    · omega
    · exfalso
      have : (⌊q⌋ : ℚ) ≤ q := Int.floor_le q
      rw [heq] at h1 this
      have h4 : q = (k : ℚ) := le_antisymm h this
      rw [h4] at h1
      norm_num at h1

theorem roundHalfEven_nonneg (q : ℚ) (h : 0 ≤ q) : 0 ≤ roundHalfEven q := by
  have hf : 0 ≤ ⌊q⌋ := Int.floor_nonneg.mpr h
  unfold roundHalfEven
  split_ifs <;> omega

theorem two_zpow_pos (j : Int) : (0 : ℚ) < (2 : ℚ) ^ j := zpow_pos (by norm_num) j

/-- A multiple `n * 2 ^ j` of a power of two that is at least the spacing of the
doubles around it is a double. -/
theorem roundDouble_of_multiple (x : ℚ) (n j : Int) (hx : x = (n : ℚ) * (2 : ℚ) ^ j)
    (hj : doubleSpacingExp x ≤ j) : roundDouble x = x := by
  unfold roundDouble
  obtain ⟨k, hk⟩ := Int.eq_ofNat_of_zero_le (sub_nonneg.mpr hj)
  have hdiv : x / (2 : ℚ) ^ doubleSpacingExp x = ((n * 2 ^ k : Int) : ℚ) := by
    rw [div_eq_iff (ne_of_gt (two_zpow_pos _))]
    have hjk : j = doubleSpacingExp x + (k : Int) := by omega
    conv_lhs => rw [hx, hjk]
    rw [zpow_add₀ (by norm_num), zpow_natCast]
    push_cast
    ring
  rw [hdiv, roundHalfEven_intCast, ← hdiv]
  exact div_mul_cancel₀ _ (ne_of_gt (two_zpow_pos _))

/-- A double is a multiple of the spacing of the doubles around it. -/
theorem multiple_of_roundDouble (e : ℚ) (h : roundDouble e = e) :
    ∃ n : Int, e = (n : ℚ) * (2 : ℚ) ^ doubleSpacingExp e :=
  ⟨roundHalfEven (e / (2 : ℚ) ^ doubleSpacingExp e), h.symm⟩

theorem doubleSpacingExp_mono (x e : ℚ) (hx : 0 < x) (hxe : x ≤ e) :
    doubleSpacingExp x ≤ doubleSpacingExp e := by
  unfold doubleSpacingExp
  have he : 0 < e := lt_of_lt_of_le hx hxe
  rw [abs_of_pos hx, abs_of_pos he]
  have := Int.log_mono_right (b := 2) hx hxe
  exact max_le_max (by omega) (le_refl _)

theorem doubleSpacingExp_le_zero (e : ℚ) (h0 : 0 ≤ e) (h : e < 2 ^ 53) :
    doubleSpacingExp e ≤ 0 := by
  unfold doubleSpacingExp
  rcases eq_or_lt_of_le h0 with h1 | h1
  · rw [← h1, abs_zero, Int.log_zero_right]
    decide
  · rw [abs_of_pos h1]
    have h2 : Int.log 2 e < 53 := by
      apply (Int.lt_zpow_iff_log_lt (by norm_num) h1).mp
      exact_mod_cast h
    exact max_le (by omega) (by decide)

theorem roundDouble_nonpos (x : ℚ) (h : x ≤ 0) : roundDouble x ≤ 0 := by
  unfold roundDouble
  have h1 : x / (2 : ℚ) ^ doubleSpacingExp x ≤ ((0 : Int) : ℚ) := by
    rw [Int.cast_zero]
    exact div_nonpos_of_nonpos_of_nonneg h (le_of_lt (two_zpow_pos _))
  have h2 := roundHalfEven_le _ 0 h1
  have h3 : ((roundHalfEven (x / (2 : ℚ) ^ doubleSpacingExp x) : Int) : ℚ) ≤ 0 := by
    exact_mod_cast h2
  exact mul_nonpos_of_nonpos_of_nonneg h3 (le_of_lt (two_zpow_pos _))

theorem roundDouble_nonneg (x : ℚ) (h : 0 ≤ x) : 0 ≤ roundDouble x := by
  unfold roundDouble
  have h1 : 0 ≤ x / (2 : ℚ) ^ doubleSpacingExp x := div_nonneg h (le_of_lt (two_zpow_pos _))
  have h2 := roundHalfEven_nonneg _ h1
  have h3 : (0 : ℚ) ≤ ((roundHalfEven (x / (2 : ℚ) ^ doubleSpacingExp x) : Int) : ℚ) := by
    exact_mod_cast h2
  exact mul_nonneg h3 (le_of_lt (two_zpow_pos _))

/-- Rounding does not pass a double that is above. -/
theorem roundDouble_le_double (x e : ℚ) (hx : 0 < x) (hxe : x ≤ e) (he : roundDouble e = e) :
    roundDouble x ≤ e := by
  obtain ⟨n, hn⟩ := multiple_of_roundDouble e he
  have hj := doubleSpacingExp_mono x e hx hxe
  obtain ⟨k, hk⟩ := Int.eq_ofNat_of_zero_le (sub_nonneg.mpr hj)
  have hjk : doubleSpacingExp e = doubleSpacingExp x + (k : Int) := by omega
  have he2 : e = ((n * 2 ^ k : Int) : ℚ) * (2 : ℚ) ^ doubleSpacingExp x := by
    conv_lhs => rw [hn, hjk]
    rw [zpow_add₀ (by norm_num), zpow_natCast]
    push_cast
    ring
  have h1 : x / (2 : ℚ) ^ doubleSpacingExp x ≤ ((n * 2 ^ k : Int) : ℚ) := by
    rw [div_le_iff₀ (two_zpow_pos _), ← he2]
    exact hxe
  have h2 := roundHalfEven_le _ _ h1
  have h3 : ((roundHalfEven (x / (2 : ℚ) ^ doubleSpacingExp x) : Int) : ℚ) ≤
      ((n * 2 ^ k : Int) : ℚ) := by exact_mod_cast h2
  unfold roundDouble
  rw [he2]
  exact mul_le_mul_of_nonneg_right h3 (le_of_lt (two_zpow_pos _))

/-- Taking an integer from a double below `2 ^ 53` is exact when the difference
is not negative. -/
theorem roundDouble_sub_int (e : ℚ) (d : Int) (he : roundDouble e = e)
    (h53 : e < 2 ^ 53) (hd : 0 ≤ d) (hde : (d : ℚ) ≤ e) :
    roundDouble (e - (d : ℚ)) = e - (d : ℚ) := by
  have h0 : 0 ≤ e := le_trans (by exact_mod_cast hd) hde
  obtain ⟨n, hn⟩ := multiple_of_roundDouble e he
  have hj0 := doubleSpacingExp_le_zero e h0 h53
  obtain ⟨k, hk⟩ := Int.eq_ofNat_of_zero_le (neg_nonneg.mpr hj0)
  have hone : (2 : ℚ) ^ (k : Int) * (2 : ℚ) ^ doubleSpacingExp e = 1 := by
    rw [← zpow_add₀ (by norm_num)]
    rw [show (k : Int) + doubleSpacingExp e = 0 by omega]
    exact zpow_zero _
  have hx : e - (d : ℚ) = ((n - d * 2 ^ k : Int) : ℚ) * (2 : ℚ) ^ doubleSpacingExp e := by
    push_cast
    rw [sub_mul, ← hn, mul_assoc]
    rw [← zpow_natCast] 
    rw [hone, mul_one]
  rcases eq_or_lt_of_le (sub_nonneg.mpr hde) with hz | hpos
  · rw [← hz]
    exact roundDouble_of_multiple 0 0 (doubleSpacingExp 0) (by simp) (le_refl _)
  · exact roundDouble_of_multiple _ _ _ hx
      (doubleSpacingExp_mono _ e hpos (sub_le_self _ (by exact_mod_cast hd)))

theorem doubleSpacingExp_of_bounds (x : ℚ) (k : Int) (hx : 0 < x)
    (hlo : (2 : ℚ) ^ k ≤ x) (hhi : x < (2 : ℚ) ^ (k + 1)) (hk : -1022 ≤ k) :
    doubleSpacingExp x = k - 52 := by
  unfold doubleSpacingExp
  rw [abs_of_pos hx]
  have h1 : k ≤ Int.log 2 x :=
    (Int.zpow_le_iff_le_log (by norm_num) hx).mp (by exact_mod_cast hlo)
  have h2 : Int.log 2 x < k + 1 :=
    (Int.lt_zpow_iff_log_lt (by norm_num) hx).mp (by exact_mod_cast hhi)
  have h3 : Int.log 2 x = k := by omega
  rw [h3]
  exact max_eq_left (by omega)

/-- The double nearest to `2 ^ 54 - 5` is `2 ^ 54 - 4`: the doubles from `2 ^ 53`
to `2 ^ 54` are the even integers. -/
theorem roundDouble_example :
    roundDouble (18014398509481984 - 5) = 18014398509481984 - 4 := by
  have hexp : doubleSpacingExp (18014398509481984 - 5) = 1 := by
    rw [doubleSpacingExp_of_bounds _ 53 (by norm_num) (by norm_num) (by norm_num) (by decide)]
    rfl
  unfold roundDouble
  rw [hexp]
  have hfloor : ⌊((18014398509481984 - 5 : ℚ) / (2 : ℚ) ^ (1 : Int))⌋ = 9007199254740989 := by
    rw [Int.floor_eq_iff]
    constructor <;> norm_num
  unfold roundHalfEven
  rw [hfloor]
  norm_num

theorem roundDouble_two_pow_54 : roundDouble 18014398509481984 = 18014398509481984 := by
  apply roundDouble_of_multiple _ 4503599627370496 2
  · norm_num
  · rw [doubleSpacingExp_of_bounds _ 54 (by norm_num) (by norm_num) (by norm_num) (by decide)]
    decide

/-! ## The player process -/

theorem truncToInt_zero : truncToInt 0 = 0 := by
  unfold truncToInt
  simp

theorem doubleToInt_zero : doubleToInt 0 = 0 := by
  unfold doubleToInt
  rw [if_pos (by norm_num)]
  exact truncToInt_zero

theorem reportValue_fallen (w : Worker) (h : w.gFallen ≠ 0) : reportValue w = 0 := by
  unfold reportValue
  rw [if_pos h]
  exact doubleToInt_zero

/-- A fallen player with no energy stays so under any signal, and what it
writes is 0. -/
theorem handleSignal_fallen (w : Worker) (t : Trigger)
    (hf : w.gFallen = 1) (he : w.gEnergy = 0) :
    (handleSignal w t).1.gFallen = 1 ∧ (handleSignal w t).1.gEnergy = 0 ∧
    ∀ v ∈ (handleSignal w t).2, v = 0 := by
  have hne : w.gFallen ≠ 0 := by rw [hf]; decide
  cases t with
  | getReady r =>
    show (handleGetReady w r).gFallen = 1 ∧ (handleGetReady w r).gEnergy = 0 ∧
      ∀ v ∈ ([] : List Int), v = 0
    unfold handleGetReady
    split_ifs
    · exact ⟨hf, he, by simp⟩
    · exact ⟨hf, he, by simp⟩
  | startPulling draw =>
    show (handleStartPulling w draw).gFallen = 1 ∧ (handleStartPulling w draw).gEnergy = 0 ∧
      ∀ v ∈ ([] : List Int), v = 0
    unfold handleStartPulling
    rw [if_neg hne]
    exact ⟨hf, he, by simp⟩
  | reportEnergy =>
    show (handleReportEnergy w).1.gFallen = 1 ∧ (handleReportEnergy w).1.gEnergy = 0 ∧
      ∀ v ∈ (handleReportEnergy w).2.toList, v = 0
    unfold handleReportEnergy
    refine ⟨hf, he, ?_⟩
    intro v hv
    dsimp only at hv
    split_ifs at hv with h1
    · simp only [Option.toList_some, List.mem_singleton] at hv
      rw [hv]
      exact reportValue_fallen w hne
    · simp at hv
  | fall =>
    show (handleFall w).gFallen = 1 ∧ (handleFall w).gEnergy = 0 ∧
      ∀ v ∈ ([] : List Int), v = 0
    unfold handleFall
    exact ⟨rfl, rfl, by simp⟩

theorem handleSignals_fallen (ts : List Trigger) :
    ∀ w : Worker, w.gFallen = 1 → w.gEnergy = 0 →
      (handleSignals w ts).1.gFallen = 1 ∧ (handleSignals w ts).1.gEnergy = 0 ∧
      ∀ v ∈ (handleSignals w ts).2, v = 0 := by
  induction ts with
  | nil =>
    intro w hf he
    exact ⟨hf, he, by simp [handleSignals]⟩
  | cons t rest ih =>
    intro w hf he
    obtain ⟨h1, h2, h3⟩ := handleSignal_fallen w t hf he
    obtain ⟨k1, k2, k3⟩ := ih (handleSignal w t).1 h1 h2
    unfold handleSignals
    refine ⟨k1, k2, ?_⟩
    intro v hv
    rcases List.mem_append.mp hv with h | h
    · exact h3 v h
    · exact k3 v h

theorem handleSignals_append (ts1 ts2 : List Trigger) :
    ∀ w : Worker, (handleSignals w (ts1 ++ ts2)).1 =
      (handleSignals (handleSignals w ts1).1 ts2).1 := by
  induction ts1 with
  | nil => intro w; rfl
  | cons t rest ih =>
    intro w
    simp only [List.cons_append, handleSignals]
    exact ih _

theorem handleSignal_gWriteFD (w : Worker) (t : Trigger) :
    (handleSignal w t).1.gWriteFD = w.gWriteFD := by
  cases t with
  | getReady r =>
    show (handleGetReady w r).gWriteFD = w.gWriteFD
    unfold handleGetReady
    split_ifs <;> rfl
  | startPulling draw =>
    show (handleStartPulling w draw).gWriteFD = w.gWriteFD
    unfold handleStartPulling
    split_ifs <;> rfl
  | reportEnergy => rfl
  | fall => rfl

theorem handleSignals_gWriteFD (ts : List Trigger) :
    ∀ w : Worker, (handleSignals w ts).1.gWriteFD = w.gWriteFD := by
  induction ts with
  | nil => intro w; rfl
  | cons t rest ih =>
    intro w
    unfold handleSignals
    exact (ih _).trans (handleSignal_gWriteFD w t)

/-- What a fallen player writes on one signal: one 0 on a REPORT_ENERGY when the
pipe is set, nothing otherwise. -/
theorem handleSignal_fallen_writes (w : Worker) (t : Trigger) (hf : w.gFallen = 1) :
    (handleSignal w t).2 =
      if isReportEnergy t = true ∧ w.gWriteFD ≠ -1 then [0] else [] := by
  have hne : w.gFallen ≠ 0 := by rw [hf]; decide
  cases t with
  | getReady r => simp [handleSignal, isReportEnergy]
  | startPulling draw => simp [handleSignal, isReportEnergy]
  | reportEnergy =>
    show (handleReportEnergy w).2.toList = _
    unfold handleReportEnergy
    by_cases hfd : w.gWriteFD ≠ -1
    · simp only [if_pos hfd, isReportEnergy, true_and, Option.toList_some,
        reportValue_fallen w hne]
    · simp only [if_neg hfd, isReportEnergy, true_and, Option.toList_none]
  | fall => simp [handleSignal, isReportEnergy]

theorem handleSignals_fallen_writes (ts : List Trigger) :
    ∀ w : Worker, w.gFallen = 1 → w.gEnergy = 0 →
      (handleSignals w ts).2 =
        if w.gWriteFD ≠ -1 then List.replicate (ts.countP isReportEnergy) 0 else [] := by
  induction ts with
  | nil =>
    intro w _ _
    simp [handleSignals]
  | cons t rest ih =>
    intro w hf he
    obtain ⟨h1, h2, -⟩ := handleSignal_fallen w t hf he
    unfold handleSignals
    rw [ih (handleSignal w t).1 h1 h2, handleSignal_fallen_writes w t hf,
      handleSignal_gWriteFD]
    by_cases hfd : w.gWriteFD ≠ -1
    · by_cases hr : isReportEnergy t = true
      · rw [List.countP_cons_of_pos _ _ hr, if_pos ⟨hr, hfd⟩, if_pos hfd, if_pos hfd]
        rfl
      · rw [List.countP_cons_of_neg _ _ hr, if_neg (fun h => hr h.1), if_pos hfd]
        rfl
    · simp only [hfd, and_false, if_false, List.append_nil]

/-- C12: for every state of a player and every sequence of signals in which a
FALL is handled, whatever comes before and after it (GET_READY with any read
outcome, START_PULLING with any draw, REPORT_ENERGY, FALL): at the end the
fallen flag is set and the energy is 0; a further REPORT_ENERGY computes the
value 0 and, the pipe being set (`gWriteFD` is not -1, and no handler changes
it), writes it; and what is written after the FALL is exactly one 0 for each
REPORT_ENERGY handled after it. -/
theorem fallen_is_terminal (w : Worker) (before after : List Trigger) :
    (handleSignals w (before ++ Trigger.fall :: after)).1.gFallen = 1 ∧
    (handleSignals w (before ++ Trigger.fall :: after)).1.gEnergy = 0 ∧
    (handleSignals w (before ++ Trigger.fall :: after)).1.gWriteFD = w.gWriteFD ∧
    reportValue (handleSignals w (before ++ Trigger.fall :: after)).1 = 0 ∧
    (handleReportEnergy (handleSignals w (before ++ Trigger.fall :: after)).1).2 =
      (if w.gWriteFD ≠ -1 then some 0 else none) ∧
    (handleSignals (handleFall (handleSignals w before).1) after).2 =
      (if w.gWriteFD ≠ -1 then List.replicate (after.countP isReportEnergy) 0 else []) ∧
    ∀ v ∈ (handleSignals (handleFall (handleSignals w before).1) after).2, v = 0 := by
  have h := handleSignals_fallen after (handleFall (handleSignals w before).1) rfl rfl
  have hw := handleSignals_fallen_writes after (handleFall (handleSignals w before).1) rfl rfl
  have hfd0 : (handleFall (handleSignals w before).1).gWriteFD = w.gWriteFD :=
    handleSignals_gWriteFD before w
  have e : (handleSignals w (before ++ Trigger.fall :: after)).1 =
      (handleSignals (handleFall (handleSignals w before).1) after).1 := by
    rw [handleSignals_append]
    rfl
  have hfd : (handleSignals (handleFall (handleSignals w before).1) after).1.gWriteFD =
      w.gWriteFD := (handleSignals_gWriteFD after _).trans hfd0
  have hrep : reportValue (handleSignals (handleFall (handleSignals w before).1) after).1 = 0 := by
    apply reportValue_fallen
    rw [h.1]
    decide
  rw [e]
  refine ⟨h.1, h.2.1, hfd, hrep, ?_, ?_, h.2.2⟩
  · unfold handleReportEnergy
    simp only [hfd, hrep]
  · rw [hw, hfd0]

/-- A player whose pipe is set: after the FALL two REPORT_ENERGY signals are
handled, with a GET_READY that sets the factor 3 between them, and two values
are written, both 0. -/
theorem fallen_is_terminal_witness :
    (handleSignals (handleFall (handleSignals sampleWorker [Trigger.startPulling 3]).1)
      [Trigger.reportEnergy, Trigger.getReady ⟨4, 3⟩, Trigger.reportEnergy]).2 = [0, 0] :=
  (fallen_is_terminal sampleWorker [Trigger.startPulling 3]
    [Trigger.reportEnergy, Trigger.getReady ⟨4, 3⟩, Trigger.reportEnergy]).2.2.2.2.2.1.trans
    (by decide)

theorem tmod_draw (r : Int) (hr : 0 ≤ r) :
    Int.tmod r 10 + 5 = r % 10 + 5 ∧ 5 ≤ r % 10 + 5 ∧ r % 10 + 5 ≤ 14 := by
  have hmod : Int.tmod r 10 = r % 10 := Int.tmod_eq_emod hr (by decide)
  rw [hmod]
  omega

/-- The energy `handleStartPulling` leaves in a player that has not fallen. -/
theorem handleStartPulling_energy (w : Worker) (r : Int) (hf : w.gFallen = 0) :
    (handleStartPulling w r).gEnergy =
      max 0 (roundDouble (w.gEnergy - ((Int.tmod r 10 + 5 : Int) : ℚ))) := by
  unfold handleStartPulling
  rw [if_pos hf]
  show (if _ then _ else _) = _
  split_ifs with hlt
  · exact (max_eq_left (le_of_lt hlt)).symm
  · exact (max_eq_right (not_lt.mp hlt)).symm

/-- C13, the counterexample: a player that has not fallen has the energy
`2 ^ 54`, a double, and the draw is 0, so that `d = 5`.  The double subtraction
rounds: the new energy is `2 ^ 54 - 4`, and `max 0 (e - d)` is `2 ^ 54 - 5`. -/
theorem handleStartPulling_rounds :
    heavyWorker.gFallen = 0 ∧ heavyWorker.gEnergy = 18014398509481984 ∧
    roundDouble heavyWorker.gEnergy = heavyWorker.gEnergy ∧
    Int.tmod 0 10 + 5 = 5 ∧
    (handleStartPulling heavyWorker 0).gEnergy = 18014398509481980 ∧
    max 0 (heavyWorker.gEnergy - ((5 : Int) : ℚ)) = 18014398509481979 ∧
    (handleStartPulling heavyWorker 0).gEnergy ≠
      max 0 (heavyWorker.gEnergy - ((Int.tmod 0 10 + 5 : Int) : ℚ)) := by
  have hnew : (handleStartPulling heavyWorker 0).gEnergy = 18014398509481980 := by
    rw [handleStartPulling_energy heavyWorker 0 rfl]
    have e : heavyWorker.gEnergy - ((Int.tmod 0 10 + 5 : Int) : ℚ) =
        18014398509481984 - 5 := by
      norm_num [heavyWorker]
    rw [e, roundDouble_example]
    norm_num
  have hmax : max 0 (heavyWorker.gEnergy - ((5 : Int) : ℚ)) = 18014398509481979 := by
    norm_num [heavyWorker]
  refine ⟨rfl, rfl, roundDouble_two_pow_54, by decide, hnew, hmax, ?_⟩
  rw [hnew]
  have e2 : ((Int.tmod 0 10 + 5 : Int) : ℚ) = ((5 : Int) : ℚ) := by norm_num
  rw [e2, hmax]
  norm_num

/-- C13 as the code has it: for a player that has not fallen, whose energy `e`
is a double with `e >= 0`, and a draw `r >= 0`, `handleStartPulling` takes
`d = r mod 10 + 5`, where `5 <= d <= 14`, from the energy in double arithmetic:
the new energy is `max 0` of the double nearest to `e - d`, it is not negative
and not above `e`, it is `max 0 (e - d)` itself when `e < 2 ^ 53`, and nothing
else changes; for a fallen player the handler changes nothing. -/
theorem handleStartPulling_spec (w : Worker) (r : Int) :
    (w.gFallen = 0 → roundDouble w.gEnergy = w.gEnergy → 0 ≤ w.gEnergy → 0 ≤ r →
      Int.tmod r 10 + 5 = r % 10 + 5 ∧ 5 ≤ r % 10 + 5 ∧ r % 10 + 5 ≤ 14 ∧
      (handleStartPulling w r).gEnergy =
        max 0 (roundDouble (w.gEnergy - ((r % 10 + 5 : Int) : ℚ))) ∧
      0 ≤ (handleStartPulling w r).gEnergy ∧
      (handleStartPulling w r).gEnergy ≤ w.gEnergy ∧
      (w.gEnergy < 2 ^ 53 →
        (handleStartPulling w r).gEnergy = max 0 (w.gEnergy - ((r % 10 + 5 : Int) : ℚ))) ∧
      handleStartPulling w r = { w with gEnergy := (handleStartPulling w r).gEnergy }) ∧
    (w.gFallen ≠ 0 → handleStartPulling w r = w) := by
  constructor
  · intro hf hdbl he hr
    obtain ⟨hmod, h5, h14⟩ := tmod_draw r hr
    have h5q : (0 : ℚ) ≤ ((r % 10 + 5 : Int) : ℚ) := by
      exact_mod_cast (le_trans (by decide) h5 : (0 : Int) ≤ r % 10 + 5)
    have hnew := handleStartPulling_energy w r hf
    rw [hmod] at hnew
    have hle : roundDouble (w.gEnergy - ((r % 10 + 5 : Int) : ℚ)) ≤ w.gEnergy := by
      rcases le_or_lt (w.gEnergy - ((r % 10 + 5 : Int) : ℚ)) 0 with hx | hx
      · exact le_trans (roundDouble_nonpos _ hx) he
      · exact roundDouble_le_double _ _ hx (sub_le_self _ h5q) hdbl
    refine ⟨hmod, h5, h14, hnew, ?_, ?_, ?_, ?_⟩
    · rw [hnew]
      exact le_max_left _ _
    · rw [hnew]
      exact max_le he hle
    · intro h53
      rw [hnew]
      rcases le_or_lt ((r % 10 + 5 : Int) : ℚ) w.gEnergy with hde | hde
      · rw [roundDouble_sub_int w.gEnergy (r % 10 + 5) hdbl h53 (le_trans (by decide) h5) hde]
      · have hx : w.gEnergy - ((r % 10 + 5 : Int) : ℚ) ≤ 0 := by linarith
        rw [max_eq_left (roundDouble_nonpos _ hx), max_eq_left hx]
    · unfold handleStartPulling
      rw [if_pos hf]
  · intro hf
    unfold handleStartPulling
    rw [if_neg hf]

theorem sampleWorker_energy_double : roundDouble sampleWorker.gEnergy = sampleWorker.gEnergy := by
  apply roundDouble_of_multiple _ 100 0
  · norm_num [sampleWorker]
  · exact doubleSpacingExp_le_zero _ (by norm_num [sampleWorker]) (by norm_num [sampleWorker])

/-- A player with energy 100 that has not fallen, and the draw 7. -/
theorem handleStartPulling_spec_witness :
    sampleWorker.gFallen = 0 ∧ (0 : ℚ) ≤ sampleWorker.gEnergy ∧
    (handleStartPulling sampleWorker 7).gEnergy =
      max 0 (sampleWorker.gEnergy - (((7 : Int) % 10 + 5 : Int) : ℚ)) ∧
    (handleStartPulling sampleWorker 7).gEnergy ≤ sampleWorker.gEnergy :=
  ⟨by decide, by decide,
   ((handleStartPulling_spec sampleWorker 7).1 (by decide) sampleWorker_energy_double
      (by decide) (by decide)).2.2.2.2.2.2.1 (by norm_num [sampleWorker]),
   ((handleStartPulling_spec sampleWorker 7).1 (by decide) sampleWorker_energy_double
      (by decide) (by decide)).2.2.2.2.2.1⟩

/-! ## `collectEnergies`: sums and stored energies -/

/-- The stored players after one pass of a loop of `collectEnergies`. -/
theorem collectOne_getElem? (base : Nat) (reads : Nat → ReadResult)
    (acc : List Player × Int) (i k : Nat) :
    (collectOne base reads acc i).1[k]? =
      if k = base + i ∧ (reads k).ret > 0 then
        acc.1[k]?.map (fun p => { p with energy := ((reads k).rawVal : ℚ) })
      else acc.1[k]? := by
  unfold collectOne
  by_cases hret : (reads (base + i)).ret > 0
  · rw [if_pos hret]
    by_cases hk : k = base + i
    · subst hk
      rw [if_pos ⟨rfl, hret⟩]
      cases hp : acc.1[base + i]? with
      | none => simp [hp]
      | some p =>
        simp only [Option.map_some']
        rw [List.getElem?_set]
        have hlt : base + i < acc.1.length := (List.getElem?_eq_some.mp hp).1
        simp [hlt]
    · rw [if_neg (fun h => hk h.1)]
      cases hp : acc.1[base + i]? with
      | none => rfl
      | some p =>
        simp only []
        rw [List.getElem?_set]
        rw [if_neg (fun h => hk h.symm)]
  · rw [if_neg hret]
    by_cases hk : k = base + i
    · subst hk
      rw [if_neg (fun h => hret h.2)]
    · rw [if_neg (fun h => hk h.1)]

/-- The stored players after a loop of `collectEnergies` over the places `l`. -/
theorem collectOne_foldl_getElem? (base : Nat) (reads : Nat → ReadResult) (k : Nat)
    (l : List Nat) :
    ∀ acc : List Player × Int,
      (l.foldl (collectOne base reads) acc).1[k]? =
        if (∃ i ∈ l, k = base + i) ∧ (reads k).ret > 0 then
          acc.1[k]?.map (fun p => { p with energy := ((reads k).rawVal : ℚ) })
        else acc.1[k]? := by
  induction l with
  | nil => intro acc; simp
  | cons i rest ih =>
    intro acc
    simp only [List.foldl_cons]
    rw [ih, collectOne_getElem?]
    have hex : (∃ j ∈ i :: rest, k = base + j) ↔ (k = base + i ∨ ∃ j ∈ rest, k = base + j) := by
      simp
    simp only [hex]
    by_cases hi : k = base + i
    · subst hi
      by_cases hret : (reads (base + i)).ret > 0
      · simp only [hret, and_true, true_or, if_true]
        split_ifs
        · cases acc.1[base + i]? with
          | none => rfl
          | some p => rfl
        · rfl
      · simp only [hret, and_false, if_false]
    · simp only [hi, false_and, false_or, if_false]

/-- The stored players after `collectEnergies`: player `k` of the eight gets the
value read on pipe `k` when that read returned more than 0, and is left as it
was otherwise. -/
theorem collectEnergies_getElem? (state : GameState) (g : List Player)
    (reads : Nat → ReadResult) (k : Nat) :
    (collectEnergies state g reads).2[k]? =
      if k < 8 ∧ (reads k).ret > 0 then
        g[k]?.map (fun p => { p with energy := ((reads k).rawVal : ℚ) })
      else g[k]? := by
  unfold collectEnergies
  simp only []
  rw [collectOne_foldl_getElem?, collectOne_foldl_getElem?]
  have h4 : List.range 4 = [0, 1, 2, 3] := by decide
  rw [h4]
  have hA : (∃ i ∈ [0, 1, 2, 3], k = 0 + i) ↔ k < 4 := by
    simp only [List.mem_cons, List.mem_singleton, List.not_mem_nil, or_false]
    constructor
    · rintro ⟨i, hi, e⟩
      omega
    · intro h
      exact ⟨k, by omega, by omega⟩
  have hB : (∃ i ∈ [0, 1, 2, 3], k = 4 + i) ↔ (4 ≤ k ∧ k < 8) := by
    simp only [List.mem_cons, List.mem_singleton, List.not_mem_nil, or_false]
    constructor
    · rintro ⟨i, hi, e⟩
      omega
    · intro h
      exact ⟨k - 4, by omega, by omega⟩
  simp only [hA, hB]
  by_cases hret : (reads k).ret > 0
  · by_cases h1 : k < 4
    · have h2 : ¬ 4 ≤ k := by omega
      have h3 : k < 8 := by omega
      simp only [hret, h1, h2, h3, and_self, and_true, false_and, if_true, if_false]
    · by_cases h3 : k < 8
      · have h2 : 4 ≤ k := by omega
        simp only [hret, h1, h2, h3, and_self, if_true, if_false, false_and]
      · simp only [h1, h3, and_false, false_and, if_false]
  · simp only [hret, and_false, if_false]

theorem wrapInt_add_wrapInt (a b : Int) : wrapInt (wrapInt a + b) = wrapInt (a + b) := by
  unfold wrapInt
  omega

theorem wrapInt_of_range (x : Int) (hlo : -2147483648 ≤ x) (hhi : x < 2147483648) :
    wrapInt x = x := by
  unfold wrapInt
  omega

/-- The total of a loop of `collectEnergies` is the sum of what the successful
reads return, reduced to the `int` range. -/
theorem pipeTotal_eq_sum (base : Nat) (reads : Nat → ReadResult) :
    pipeTotal base reads =
      wrapInt ((List.range 4).map
        (fun i => if (reads (base + i)).ret > 0 then (reads (base + i)).rawVal else 0)).sum := by
  have h4 : List.range 4 = [0, 1, 2, 3] := by decide
  unfold pipeTotal
  rw [h4]
  simp only [List.foldl_cons, List.foldl_nil, List.map_cons, List.map_nil, List.sum_cons,
    List.sum_nil]
  split_ifs <;> simp only [wrapInt_add_wrapInt, zero_add, add_zero] <;>
    first
      | rfl
      | (unfold wrapInt; omega)

/-- C14, the counterexample: a read that returns 1, fewer bytes than an `int`
has, is taken as a value.  In `collectEnergies` the stored energy of player 0
goes from 100 to the 7 found in `rawVal`; in `handleGetReady` the factor goes
from 1 to the 7 found in `newFactor`. -/
theorem short_read_taken_as_value :
    sampleTable[0]?.map (fun p => p.energy) = some 100 ∧
    (collectEnergies (initMachine sampleTable).gState sampleTable
      (fun _ => ⟨1, 7⟩)).2[0]?.map (fun p => p.energy) = some 7 ∧
    sampleWorker.gPositionFactor = 1 ∧
    (handleGetReady sampleWorker ⟨1, 7⟩).gPositionFactor = 7 := by
  decide

/-- C14 as the code has it: in `collectEnergies` and in `handleGetReady` a read
that returns 0 or a negative result is treated as no value, and the stored
energy of that player, respectively the `positionFactor` of the worker, is left
exactly as it was; a read that returns more than 0, be it fewer bytes than an
`int` has, is taken as a value. -/
theorem transport_miss_keeps_value (state : GameState) (g : List Player)
    (reads : Nat → ReadResult) (k : Nat) (p : Player) (w : Worker) (r : ReadResult)
    (hk : k < 8) (hp : g[k]? = some p) :
    ((reads k).ret ≤ 0 → (collectEnergies state g reads).2[k]? = some p) ∧
    ((reads k).ret > 0 → (collectEnergies state g reads).2[k]? =
      some { p with energy := ((reads k).rawVal : ℚ) }) ∧
    (r.ret ≤ 0 → handleGetReady w r = w) ∧
    (r.ret > 0 → handleGetReady w r = { w with gPositionFactor := r.rawVal }) := by
  refine ⟨?_, ?_, ?_, ?_⟩
  · intro h
    rw [collectEnergies_getElem?, if_neg (fun hc => absurd hc.2 (not_lt.mpr h)), hp]
  · intro h
    rw [collectEnergies_getElem?, if_pos ⟨hk, h⟩, hp]
    rfl
  · intro h
    unfold handleGetReady
    rw [if_neg (not_lt.mpr h)]
  · intro h
    unfold handleGetReady
    rw [if_pos h]

/-- A tick in which every read returns 0 and a GET_READY whose read returns -1. -/
theorem transport_miss_keeps_value_witness :
    (collectEnergies (initMachine sampleTable).gState sampleTable
      (fun _ => ⟨0, 0⟩)).2[0]? = some (samplePlayer 1 1 100 50) ∧
    handleGetReady sampleWorker ⟨-1, 0⟩ = sampleWorker :=
  have h := transport_miss_keeps_value (initMachine sampleTable).gState sampleTable
    (fun _ => ⟨0, 0⟩) 0 (samplePlayer 1 1 100 50) sampleWorker ⟨-1, 0⟩ (by decide) (by decide)
  ⟨h.1 (by decide), h.2.2.1 (by decide)⟩

/-- C15, evaluated on the code: in a table with four players of each team in
which the teams alternate, every read succeeds, the players of team 1 report
100 each and those of team 2 report 10 each.  The players of team 1 reported
400 in all and those of team 2 reported 40, but `collectEnergies` sets both
`sumTeam1` and `sumTeam2` to 220: it adds up pipes 0 to 3 and pipes 4 to 7,
whatever the `team` fields are. -/
theorem sums_follow_places_not_teams :
    (mixedTable.filter (fun p => p.team = 1)).length = 4 ∧
    (mixedTable.filter (fun p => p.team = 2)).length = 4 ∧
    (mixedTable.map (fun p => p.id)).Nodup ∧
    (∀ k : Nat, (alternatingReads k).ret > 0) ∧
    teamReportSum mixedTable alternatingReads 1 = 400 ∧
    teamReportSum mixedTable alternatingReads 2 = 40 ∧
    (collectEnergies (initMachine mixedTable).gState mixedTable alternatingReads).1.sumTeam1
      = 220 ∧
    (collectEnergies (initMachine mixedTable).gState mixedTable alternatingReads).1.sumTeam2
      = 220 := by
  refine ⟨by decide, by decide, by decide, ?_, by decide, by decide, by decide, by decide⟩
  intro k
  unfold alternatingReads
  split_ifs <;> decide

/-- C17, the counterexample: every read succeeds and returns `2 ^ 30`, a value
an `int` holds.  The values read on pipes 0 to 3 add up to `2 ^ 32`, and
`collectEnergies` leaves 0 in `sumTeam1`; the same holds for pipes 4 to 7 and
`sumTeam2`. -/
theorem collectEnergies_sum_wraps :
    (∀ k : Nat, k < 8 → (largeReads k).ret > 0 ∧ -2147483648 ≤ (largeReads k).rawVal ∧
      (largeReads k).rawVal < 2147483648) ∧
    ((List.range 4).map
      (fun i => if (largeReads i).ret > 0 then (largeReads i).rawVal else 0)).sum
      = 4294967296 ∧
    (collectEnergies (initMachine sampleTable).gState sampleTable largeReads).1.sumTeam1 = 0 ∧
    (collectEnergies (initMachine sampleTable).gState sampleTable largeReads).1.sumTeam2 = 0 := by
  refine ⟨?_, by decide, by decide, by decide⟩
  intro k _
  unfold largeReads
  exact ⟨by decide, by decide, by decide⟩

/-- C17 as the code has it: whatever the state before and whatever the eight
reads return, `collectEnergies` sets `sumTeam1` to the sum of the values of the
successful reads on pipes 0 to 3 of this call, a failed read counting 0, added
up in an `int`: it is that sum reduced modulo `2 ^ 32` to the `int` range, and
the sum itself when the sum is in that range; `sumTeam2` is the same for pipes
4 to 7.  The sums do not depend on the state before, and the other fields of
the state are kept.  A player whose read succeeded has its stored energy
replaced by the value read, a player whose read failed keeps its stored
energy. -/
theorem collectEnergies_overwrites (state : GameState) (g : List Player)
    (reads : Nat → ReadResult) :
    (collectEnergies state g reads).1.sumTeam1 =
      wrapInt ((List.range 4).map
        (fun i => if (reads i).ret > 0 then (reads i).rawVal else 0)).sum ∧
    (collectEnergies state g reads).1.sumTeam2 =
      wrapInt ((List.range 4).map
        (fun i => if (reads (4 + i)).ret > 0 then (reads (4 + i)).rawVal else 0)).sum ∧
    (-2147483648 ≤ ((List.range 4).map
        (fun i => if (reads i).ret > 0 then (reads i).rawVal else 0)).sum →
      ((List.range 4).map
        (fun i => if (reads i).ret > 0 then (reads i).rawVal else 0)).sum < 2147483648 →
      (collectEnergies state g reads).1.sumTeam1 =
        ((List.range 4).map
          (fun i => if (reads i).ret > 0 then (reads i).rawVal else 0)).sum) ∧
    (-2147483648 ≤ ((List.range 4).map
        (fun i => if (reads (4 + i)).ret > 0 then (reads (4 + i)).rawVal else 0)).sum →
      ((List.range 4).map
        (fun i => if (reads (4 + i)).ret > 0 then (reads (4 + i)).rawVal else 0)).sum
        < 2147483648 →
      (collectEnergies state g reads).1.sumTeam2 =
        ((List.range 4).map
          (fun i => if (reads (4 + i)).ret > 0 then (reads (4 + i)).rawVal else 0)).sum) ∧
    (∀ other : GameState,
      (collectEnergies other g reads).1.sumTeam1 = (collectEnergies state g reads).1.sumTeam1 ∧
      (collectEnergies other g reads).1.sumTeam2 =
        (collectEnergies state g reads).1.sumTeam2) ∧
    (collectEnergies state g reads).1 =
      { state with sumTeam1 := (collectEnergies state g reads).1.sumTeam1
                   sumTeam2 := (collectEnergies state g reads).1.sumTeam2 } ∧
    (∀ (k : Nat) (p : Player), k < 8 → g[k]? = some p →
      ((reads k).ret > 0 → (collectEnergies state g reads).2[k]? =
        some { p with energy := ((reads k).rawVal : ℚ) }) ∧
      (¬ (reads k).ret > 0 → (collectEnergies state g reads).2[k]? = some p)) := by
  have e0 : ∀ i, (reads (0 + i)) = reads i := fun i => by rw [Nat.zero_add]
  have s1 : (collectEnergies state g reads).1.sumTeam1 =
      wrapInt ((List.range 4).map
        (fun i => if (reads i).ret > 0 then (reads i).rawVal else 0)).sum := by
    rw [collectEnergies_fst]
    show pipeTotal 0 reads = _
    rw [pipeTotal_eq_sum]
    simp only [e0]
  have s2 : (collectEnergies state g reads).1.sumTeam2 =
      wrapInt ((List.range 4).map
        (fun i => if (reads (4 + i)).ret > 0 then (reads (4 + i)).rawVal else 0)).sum := by
    rw [collectEnergies_fst]
    show pipeTotal 4 reads = _
    rw [pipeTotal_eq_sum]
  refine ⟨s1, s2, ?_, ?_, ?_, ?_, ?_⟩
  · intro hlo hhi
    rw [s1, wrapInt_of_range _ hlo hhi]
  · intro hlo hhi
    rw [s2, wrapInt_of_range _ hlo hhi]
  · intro other
    rw [collectEnergies_fst, collectEnergies_fst]
    exact ⟨rfl, rfl⟩
  · rw [collectEnergies_fst]
  · intro k p hk hp
    constructor
    · intro h
      rw [collectEnergies_getElem?, if_pos ⟨hk, h⟩, hp]
      rfl
    · intro h
      rw [collectEnergies_getElem?, if_neg (fun hc => h hc.2), hp]

/-- A tick in which the four players of team 1 report 125 each and those of
team 2 report 50 each: the sums are 500 and 200. -/
theorem collectEnergies_overwrites_witness :
    (collectEnergies (initMachine sampleTable).gState sampleTable
      (uniformReads 125 50)).1.sumTeam1 = 500 ∧
    (collectEnergies (initMachine sampleTable).gState sampleTable
      (uniformReads 125 50)).1.sumTeam2 = 200 :=
  ⟨((collectEnergies_overwrites (initMachine sampleTable).gState sampleTable
      (uniformReads 125 50)).2.2.1 (by decide) (by decide)).trans (by decide),
   ((collectEnergies_overwrites (initMachine sampleTable).gState sampleTable
      (uniformReads 125 50)).2.2.2.1 (by decide) (by decide)).trans (by decide)⟩

/-! ## The ranking of the energies 40, 10, 10, 30 -/

theorem team_ids_distinct (g : List Player) (hid : (g.map (fun p => p.id)).Nodup) (t : Int)
    (a b c d : Player) (hF : g.filter (fun p => p.team = t) = [a, b, c, d]) :
    a.id ≠ b.id ∧ a.id ≠ c.id ∧ a.id ≠ d.id ∧ b.id ≠ c.id ∧ b.id ≠ d.id ∧ c.id ≠ d.id := by
  obtain ⟨a2, b2, c2, d2, hF2, h⟩ := team_four g hid t (by rw [hF]; rfl)
  rw [hF] at hF2
  simp only [List.cons.injEq, and_true] at hF2
  obtain ⟨rfl, rfl, rfl, rfl⟩ := hF2
  exact h

theorem rank_four_example (a b c d : Player)
    (hab : a.id ≠ b.id) (hac : a.id ≠ c.id) (had : a.id ≠ d.id)
    (hbc : b.id ≠ c.id) (hbd : b.id ≠ d.id) (hcd : c.id ≠ d.id)
    (ha : a.energy = 40) (hb : b.energy = 10) (hc : c.energy = 10) (hd : d.energy = 30) :
    rankOf [a, b, c, d] a = 4 ∧ rankOf [a, b, c, d] b = 1 ∧
    rankOf [a, b, c, d] c = 2 ∧ rankOf [a, b, c, d] d = 3 := by
  unfold rankOf
  rw [sortByEnergyAsc_unfold]
  rw [compareSwap_01, if_pos (by rw [ha, hb]; norm_num)]
  rw [compareSwap_02, if_neg (by rw [hb, hc]; norm_num)]
  rw [compareSwap_03, if_neg (by rw [hb, hd]; norm_num)]
  rw [compareSwap_12, if_pos (by rw [ha, hc]; norm_num)]
  rw [compareSwap_13, if_neg (by rw [hc, hd]; norm_num)]
  rw [compareSwap_23, if_pos (by rw [ha, hd]; norm_num)]
  simp only [assignFactors_four, newFactor_four, hab, hac, had, hbc, hbd, hcd,
    hab.symm, hac.symm, had.symm, hbc.symm, hbd.symm, hcd.symm, if_true, if_false, and_self]

theorem rerank_id (g : List Player) (p : Player) : (rerank g p).id = p.id := by
  unfold rerank
  rfl

theorem filter_team_map_rerank (g l : List Player) (t : Int) :
    List.filter (fun p => decide (p.team = t)) (l.map (rerank g)) =
      (List.filter (fun p => decide (p.team = t)) l).map (rerank g) := by
  rw [List.filter_map]
  congr 1
  apply List.filter_congr
  intro p _
  simp [rerank_team g p]

/-- C16, the counterexample: the four players of team 1 have, in table order,
the energies 40, 10, 10, 30 and distinct ids, and `reorderTeams` gives them the
factors 4, 1, 2, 3, which is not 3, 1, 2, 4: the player with the highest energy,
40, gets factor 4 and the one with 30 gets factor 3. -/
theorem reorderTeams_example_factors :
    (tiedTable.map (fun p => p.id)).Nodup ∧
    (tiedTable.filter (fun p => p.team = 1)).map (fun p => p.energy) = [40, 10, 10, 30] ∧
    (tiedTable.filter (fun p => p.team = 2)).length = 4 ∧
    ((reorderTeams tiedTable).filter (fun p => p.team = 1)).map
      (fun p => p.positionFactor) = [4, 1, 2, 3] ∧
    ((reorderTeams tiedTable).filter (fun p => p.team = 1)).map
      (fun p => p.positionFactor) ≠ [3, 1, 2, 4] := by
  decide

/-- C16 as the code has it: when the four players of one team have, in
`gPlayers` order, the energies 40, 10, 10, 30 (distinct ids, four players in the
other team, which is otherwise arbitrary), `reorderTeams` gives them the factors
4, 1, 2, 3 in that order. -/
theorem reorderTeams_example (g : List Player)
    (hid : (g.map (fun p => p.id)).Nodup)
    (h1 : (g.filter (fun p => p.team = 1)).length = 4)
    (h2 : (g.filter (fun p => p.team = 2)).length = 4)
    (t : Int) (ht : t = 1 ∨ t = 2) (a b c d : Player)
    (hF : g.filter (fun p => p.team = t) = [a, b, c, d])
    (ha : a.energy = 40) (hb : b.energy = 10) (hc : c.energy = 10) (hd : d.energy = 30) :
    ((reorderTeams g).filter (fun p => p.team = t)).map
      (fun p => (p.id, p.energy, p.positionFactor)) =
      [(a.id, 40, 4), (b.id, 10, 1), (c.id, 10, 2), (d.id, 30, 3)] := by
  obtain ⟨hab, hac, had, hbc, hbd, hcd⟩ := team_ids_distinct g hid t a b c d hF
  have memF : ∀ x, x ∈ [a, b, c, d] → x ∈ g ∧ x.team = t := by
    intro x hx
    rw [← hF] at hx
    simpa using hx
  have hr : ∀ x, x ∈ [a, b, c, d] → (rerank g x).positionFactor = rankOf [a, b, c, d] x := by
    intro x hx
    rw [← hF]
    exact rerank_factor g hid h1 h2 t ht x (memF x hx).1 (memF x hx).2
  obtain ⟨ra, rb, rc, rd⟩ := rank_four_example a b c d hab hac had hbc hbd hcd ha hb hc hd
  rw [reorderTeams_eq_map_rerank g hid, filter_team_map_rerank, hF]
  simp only [List.map_cons, List.map_nil, rerank_id, rerank_energy]
  rw [hr a (by simp), hr b (by simp), hr c (by simp), hr d (by simp), ra, rb, rc, rd,
    ha, hb, hc, hd]

/-- The table whose team 1 has the energies 40, 10, 10, 30. -/
theorem reorderTeams_example_witness :
    ((reorderTeams tiedTable).filter (fun p => p.team = 1)).map
      (fun p => (p.id, p.energy, p.positionFactor)) =
      [(1, 40, 4), (2, 10, 1), (3, 10, 2), (4, 30, 3)] :=
  reorderTeams_example tiedTable (by decide) (by decide) (by decide) 1 (Or.inl rfl)
    (samplePlayer 1 1 40 50) (samplePlayer 2 1 10 100) (samplePlayer 3 1 10 150)
    (samplePlayer 4 1 30 200) (by decide) rfl rfl rfl rfl

end RopeGame
